import Mathlib

/-!
Verification development for the Image-Gallery server (`server.js`): a shallow
embedding of its metadata-and-file consistency engine.

Modelling conventions, used throughout:
* A JS object used as a map (the metadata map) is an association list
  `List (String × ItemMeta)` in insertion order; JS objects have unique keys,
  so theorems that need it assume `keysNodup`.  `getMeta` is property lookup.
* The uploads directory is a `List String` of file names (as returned by
  `fs.readdirSync`); the backups directory is a list of `Backup` snapshots,
  most recent first (the code sorts names descending and takes the head).
* Filenames/URLs are processed as `List Char`; `path.parse(x).name`,
  `path.extname`, `String.prototype.split`, `includes`, and the regexes of
  `server.js` are reimplemented character by character below.
* Fallible I/O is made explicit: the states of the primary and backup metadata
  files form `FState` (missing / corrupt / valid); `fs` writes are assumed to
  succeed (the code logs and continues on write failure).
* `Array.prototype.sort` with the comparator
  `(a, b) => a.order - b.order || a.id.localeCompare(b.id)` is modelled by
  insertion sort with the corresponding total preorder; `localeCompare` is
  modelled as code-point lexicographic comparison.
-/

namespace Gallery

/-! ## Character and string utilities (models of `path` / `String` methods) -/

/-- Membership test on a list of strings, as `Array.prototype.includes` /
`Set.prototype.has`. -/
def memS (k : String) (l : List String) : Bool :=
  l.any (fun x => x == k)

/-- Lowercase a character list, as `String.prototype.toLowerCase` (ASCII). -/
def lowerL (l : List Char) : List Char :=
  l.map Char.toLower

/-- The characters after the last `/`, with trailing separators trimmed first:
the `base` computed by Node's `path.parse` (posix). -/
def baseOf (l : List Char) : List Char :=
  ((l.reverse.dropWhile (fun c => c = '/')).takeWhile (fun c => c ≠ '/')).reverse

/-- The `name` of Node's `path.parse` applied to a base name: everything before
the last `.`, except that a lone leading dot, a dotless name, or the special
name `..` keeps the whole base. -/
def nameNoExt (base : List Char) : List Char :=
  if base = ['.', '.'] then base
  else
    let suf := base.reverse.takeWhile (fun c => c ≠ '.')
    if suf.length = base.length then base
    else
      let name := base.take (base.length - suf.length - 1)
      if name = [] then base else name

/-- The extension of a base name including the dot, as Node's `path.extname`:
empty when there is no dot, when the only dot leads, or for `..`. -/
def extOf (base : List Char) : List Char :=
  if base = ['.', '.'] then []
  else
    let suf := base.reverse.takeWhile (fun c => c ≠ '.')
    if suf.length = base.length then []
    else if base.length - suf.length - 1 = 0 then []
    else base.drop (base.length - suf.length - 1)

/-- Suffix test: `pat` is the trailing segment of `l`. -/
def endsWithL (pat l : List Char) : Bool :=
  decide (l.drop (l.length - pat.length) = pat)

/-- Test that `pat` occurs at the head of `l`. -/
def beginsWith : List Char → List Char → Bool
  | [], _ => true
  | _ :: _, [] => false
  | p :: ps, c :: cs => p == c && beginsWith ps cs

/-- Substring test, as `String.prototype.includes`. -/
def hasSeg (pat : List Char) : List Char → Bool
  | [] => beginsWith pat []
  | c :: t => beginsWith pat (c :: t) || hasSeg pat t

/-- Index of the first occurrence of `pat`, if any. -/
def findOcc (pat : List Char) : List Char → Option Nat
  | [] => if beginsWith pat [] then some 0 else none
  | c :: t =>
    if beginsWith pat (c :: t) then some 0
    else (findOcc pat t).map (fun i => i + 1)

/-- Fueled worker for `splitOnL`. -/
def splitOnFuel (pat : List Char) : Nat → List Char → List (List Char)
  | 0, l => [l]
  | fuel + 1, l =>
    match findOcc pat l with
    | none => [l]
    | some i => l.take i :: splitOnFuel pat fuel (l.drop (i + pat.length))

/-- Split on every occurrence of a nonempty separator, as
`String.prototype.split`. -/
def splitOnL (pat l : List Char) : List (List Char) :=
  if pat.isEmpty then [l] else splitOnFuel pat (l.length + 1) l

/-- Code-point lexicographic "less or equal" on character lists; the model of
`a.localeCompare(b) <= 0` used by the sort comparator. -/
def lexLe : List Char → List Char → Bool
  | [], _ => true
  | _ :: _, [] => false
  | a :: as, b :: bs =>
    if a < b then true
    else if b < a then false
    else lexLe as bs

/-! ## Media-type recognition (`server.js` extension allow-lists) -/

/-- The lowercase image extensions accepted by the server. -/
def imageExts : List (List Char) :=
  [".jpg".data, ".jpeg".data, ".png".data, ".gif".data, ".webp".data]

/-- The lowercase video extensions accepted by the server. -/
def videoExts : List (List Char) :=
  [".mp4".data, ".webm".data, ".ogg".data, ".mov".data, ".avi".data]

/-- All recognized media extensions, as the literal array
`['.jpg', '.jpeg', '.png', '.gif', '.webp', '.mp4', '.webm', '.ogg', '.mov', '.avi']`. -/
def mediaExts : List (List Char) :=
  imageExts ++ videoExts

/-- Lowercased extension of a filename: `path.extname(f).toLowerCase()`. -/
def extLowerOf (f : String) : List Char :=
  lowerL (extOf (baseOf f.data))

/-- Recognized-media test used by every directory scan in `server.js`:
`mediaExts.includes(path.extname(f).toLowerCase())`. -/
def isMediaName (f : String) : Bool :=
  mediaExts.any (fun e => e == extLowerOf f)

/-- The test `/\.(mp4|webm|ogg|mov|avi)$/i.test(f)` used when synthesizing a
default record: case-insensitive ends-with on the whole filename. -/
def videoRegexTest (f : String) : Bool :=
  videoExts.any (fun v => endsWithL v (lowerL f.data))

/-- The recognized media files of a directory listing, in listing order. -/
def mediaFiles (disk : List String) : List String :=
  disk.filter isMediaName

/-! ## The metadata record and map -/

/-- One metadata record, covering both variants (stored file / external link).
Optional JS fields are `Option`s; a field the code writes as `null` or omits is
`none`. -/
structure ItemMeta where
  category : String := "fun"
  description : String := ""
  uploadDate : String := ""
  type : String := "image"
  groupId : Option String := none
  order : Option Int := none
  isExternal : Bool := false
  externalUrl : Option String := none
  embedUrl : Option String := none
  videoType : Option String := none
  titleImageId : Option String := none
deriving DecidableEq, Repr

/-- The metadata map: id to record, in insertion order. -/
abbrev Meta := List (String × ItemMeta)

/-- Property lookup `metadata[k]`. -/
def getMeta (m : Meta) (k : String) : Option ItemMeta :=
  (m.find? (fun kr => kr.1 == k)).map (fun kr => kr.2)

/-- JS objects cannot repeat a key; theorems that depend on this assume it. -/
def keysNodup (m : Meta) : Prop :=
  (m.map Prod.fst).Nodup

instance (m : Meta) : Decidable (keysNodup m) := by
  unfold keysNodup
  exact inferInstance

/-! ## Metadata store: `loadMetadataWithFallback` -/

/-- State of a metadata file on disk: absent, unreadable/unparseable, or valid
JSON holding a map. -/
inductive FState where
  | missing : FState
  | corrupt : FState
  | valid : Meta → FState
deriving DecidableEq

/-- Model of `loadMetadataWithFallback()`: given the states of the primary and
backup metadata files, returns the loaded map together with the resulting state
of the primary file (the fallback path rewrites the primary from the backup's
raw bytes).  Totality models "never throws". -/
def loadMetadataWithFallback : FState → FState → Meta × FState
  | FState.valid m, _ => (m, FState.valid m)
  | p, FState.valid mb =>
    match p with
    | FState.valid m => (m, FState.valid m)
    | _ => (mb, FState.valid mb)
  | p, _ => ([], p)

/-! ## Filesystem reconciler: `syncMetadataWithFiles` -/

/-- A default record synthesized for an on-disk file with no metadata entry
(lines 1333-1340 of `server.js`). -/
def defaultRecFor (f : String) (mtime : String) : ItemMeta :=
  { category := "fun"
    description := ""
    uploadDate := mtime
    type := if videoRegexTest f then "video" else "image"
    groupId := none
    order := some 999
    isExternal := false
    externalUrl := none
    embedUrl := none
    videoType := none
    titleImageId := none }

/-- The orphan-cleanup plus backfill core of `syncMetadataWithFiles` (lines
1309-1350): removes entries that are neither external nor named by a recognized
on-disk media file, then appends a default record for every recognized on-disk
media file with no entry.  `mt f` is the file's modification time.  The Bool is
the `updated` flag. -/
def reconcileCore (m : Meta) (disk : List String) (mt : String → String) : Meta × Bool :=
  let fileSet := mediaFiles disk
  let kept := m.filter (fun kr => kr.2.isExternal || memS kr.1 fileSet)
  let toAdd := fileSet.filter (fun f => (getMeta kept f).isNone)
  let added := toAdd.map (fun f => (f, defaultRecFor f (mt f)))
  (kept ++ added, (!(kept.length == m.length)) || (!toAdd.isEmpty))

/-- One backup snapshot directory: the copied upload files, and the copied
metadata file if the snapshot contains one. -/
structure Backup where
  files : List String
  meta : Option Meta

/-- Result of a full reconciliation pass. -/
structure SyncResult where
  metadata : Meta
  disk : List String
  updated : Bool

/-- The restore branch of `syncMetadataWithFiles` (lines 1260-1296): when the
uploads directory holds no recognized media file and a backup snapshot exists,
`restoreFromBackup` copies the newest snapshot's files into the directory and
its metadata copy (if any) over the primary metadata file, which the subsequent
`loadMetadata()` then reads. -/
def restoreIfEmpty (m : Meta) (disk : List String) (backups : List Backup) :
    Meta × List String :=
  if (mediaFiles disk).isEmpty then
    match backups with
    | [] => (m, disk)
    | b :: _ => (b.meta.getD m, disk ++ b.files.filter (fun f => !(memS f disk)))
  else (m, disk)

/-- Full model of `syncMetadataWithFiles()`: possible restore, then the
reconcile core against the post-restore directory and metadata. -/
def syncMetadataWithFiles (m : Meta) (disk : List String) (mt : String → String)
    (backups : List Backup) : SyncResult :=
  let md := restoreIfEmpty m disk backups
  let rc := reconcileCore md.1 md.2 mt
  { metadata := rc.1, disk := md.2, updated := rc.2 }

/-! ## Order extraction: `extractOrderFromFilename` -/

/-- Predicate for a non-digit character (the complement of regex `\d`). -/
def nonDigit (c : Char) : Bool :=
  !c.isDigit

/-- The first maximal run of digits in a character list: the match of `/\d+/`. -/
def firstDigitRun (l : List Char) : List Char :=
  (l.dropWhile nonDigit).takeWhile Char.isDigit

/-- Decimal value of a digit run, as `parseInt(run, 10)`. -/
def digitsToNat (l : List Char) : Nat :=
  l.foldl (fun a c => a * 10 + (c.toNat - 48)) 0

/-- Character-level body of `extractOrderFromFilename` (lines 1583-1600):
strip the extension from the base name, find the first digit run, and use it
zero-based when its value lies in `[1, 9999]`. -/
def extractOrderL (l : List Char) : Option Nat :=
  let run := firstDigitRun (nameNoExt (baseOf l))
  if run = [] then none
  else
    let n := digitsToNat run
    if 1 ≤ n ∧ n ≤ 9999 then some (n - 1) else none

/-- Model of `extractOrderFromFilename(filename)`. -/
def extractOrderFromFilename (s : String) : Option Int :=
  (extractOrderL s.data).map (fun n => (n : Int))

/-! ## Order assignment during ingestion -/

/-- One step of the `maxOrder` scan: take the running maximum with the order of
`f` when `f`'s record belongs to the group and defines one. -/
def maxStep (m : Meta) (g : String) (acc : Int) (f : String) : Int :=
  match getMeta m f with
  | some r =>
    if r.groupId == some g then
      match r.order with
      | some v => max acc v
      | none => acc
    else acc
  | none => acc

/-- The `maxOrder` scan shared by `POST /api/upload` (lines 1619-1632) and
`POST /api/upload-link` (lines 2098-2108): it folds over the files of the
uploads directory only, looking their metadata up by filename, starting from
-1. -/
def maxOrderOnDisk (m : Meta) (disk : List String) (g : String) : Int :=
  disk.foldl (maxStep m g) (-1)

/-- The order assigned to a new upload or link: digit-derived when the original
name/URL yields one; otherwise max-plus-one over the group's on-disk files when
a group id was supplied; otherwise the sentinel 999. -/
def assignedOrder (m : Meta) (disk : List String) (nameOrUrl : String)
    (g : Option String) : Int :=
  match extractOrderFromFilename nameOrUrl with
  | some k => k
  | none =>
    match g with
    | some gid => maxOrderOnDisk m disk gid + 1
    | none => 999

/-! ## External-link classification: `POST /api/upload-link` -/

/-- Head of a split, as `
s.split(sep)[0]` (always defined). -/
def headSplit (pat s : List Char) : List Char :=
  (splitOnL pat s).headD s

/-- Model of the URL classification in `POST /api/upload-link` (lines
2060-2090): returns `(videoType, embedUrl)`. -/
def classifyLink (url : String) : String × String :=
  let u := url.data
  if hasSeg "youtube.com".data u || hasSeg "youtu.be".data u then
    let vid : Option (List Char) :=
      if hasSeg "youtube.com/watch?v=".data u then
        ((splitOnL "v=".data u).get? 1).map (fun s => headSplit "&".data s)
      else if hasSeg "youtu.be/".data u then
        ((splitOnL "youtu.be/".data u).get? 1).map (fun s => headSplit "?".data s)
      else none
    match vid with
    | some v =>
      if v = [] then ("youtube", url)
      else ("youtube", String.mk ("https://www.youtube.com/embed/".data ++ v))
    | none => ("youtube", url)
  else if hasSeg "drive.google.com".data u then
    let fid : Option (List Char) :=
      if hasSeg "/file/d/".data u then
        ((splitOnL "/file/d/".data u).get? 1).map (fun s => headSplit "/".data s)
      else none
    match fid with
    | some f =>
      if f = [] then ("googledrive", url)
      else
        ("googledrive",
          String.mk ("https://drive.google.com/file/d/".data ++ f ++ "/preview".data))
    | none => ("googledrive", url)
  else ("unknown", url)

/-- The fields of the item produced by `POST /api/upload-link` that the spec
speaks about. -/
structure LinkItem where
  videoType : String
  embedUrl : String
  order : Int
deriving DecidableEq, Repr

/-- Model of `POST /api/upload-link`: classify the URL and derive the order by
the same policy as stored-file ingestion, applied to the URL string. -/
def uploadLink (m : Meta) (disk : List String) (url : String) (g : Option String) :
    LinkItem :=
  let c := classifyLink url
  { videoType := c.1, embedUrl := c.2, order := assignedOrder m disk url g }

/-! ## Group assembly and ordering -/

/-- A group member as the endpoints build it: its id and the display order used
by the sort comparator (`meta.order !== undefined ? meta.order : 999`). -/
structure GFile where
  id : String
  ord : Int
deriving DecidableEq, Repr

instance : Inhabited GFile := ⟨{ id := "", ord := 0 }⟩

/-- Display order of an id: its record's `order` if defined, else 999. -/
def ordOf (m : Meta) (i : String) : Int :=
  match getMeta m i with
  | some r =>
    match r.order with
    | some v => v
    | none => 999
  | none => 999

/-- The comparator `(a, b) => (a.order - b.order) || a.id.localeCompare(b.id)`
as a total preorder: order ascending, ties by id ascending. -/
def fileLE (a b : GFile) : Prop :=
  a.ord < b.ord ∨ (a.ord = b.ord ∧ lexLe a.id.data b.id.data = true)

instance : DecidableRel fileLE := fun a b => by
  unfold fileLE; exact inferInstance

/-- The sort every listing/detail/export path applies to a group's members. -/
def sortFiles (l : List GFile) : List GFile :=
  List.insertionSort fileLE l

/-- The group's stored-file members: on-disk files whose record carries the
group id and whose extension is recognized, in directory order. -/
def physMembers (m : Meta) (disk : List String) (g : String) : List GFile :=
  (disk.filter (fun f =>
      (match getMeta m f with
       | some r => r.groupId == some g
       | none => false)
      && isMediaName f)).map
    (fun f => { id := f, ord := ordOf m f })

/-- The group's external-link members: metadata entries marked external that
carry the group id, in map order. -/
def extMembers (m : Meta) (g : String) : List GFile :=
  (m.filter (fun kr => kr.2.isExternal && kr.2.groupId == some g)).map
    (fun kr => { id := kr.1, ord := ordOf m kr.1 })

/-- The member list `GET /api/groups/:groupId` builds before sorting: physical
files first, then external links. -/
def detailMembersRaw (m : Meta) (disk : List String) (g : String) : List GFile :=
  physMembers m disk g ++ extMembers m g

/-- The member list `GET /api/images` builds for a group before sorting:
external links first (the metadata pass runs first), then physical files. -/
def listingMembersRaw (m : Meta) (disk : List String) (g : String) : List GFile :=
  extMembers m g ++ physMembers m disk g

/-- Sorted member list of the group-detail endpoint. -/
def detailSortedFiles (m : Meta) (disk : List String) (g : String) : List GFile :=
  sortFiles (detailMembersRaw m disk g)

/-- Sorted member list of a group in the top-level listing. -/
def listingSortedFiles (m : Meta) (disk : List String) (g : String) : List GFile :=
  sortFiles (listingMembersRaw m disk g)

/-- Sorted item list of the zip export `GET /api/groups/:groupId/download`:
stored files and external links combined, sorted the same way. -/
def zipSortedItems (m : Meta) (disk : List String) (g : String) : List GFile :=
  sortFiles (physMembers m disk g ++ extMembers m g)

/-! ## Title resolution -/

/-- The `titleImageId` carried by an id's record, with JS truthiness: an empty
string is as good as unset. -/
def tidOf (m : Meta) (i : String) : Option String :=
  match getMeta m i with
  | some r =>
    match r.titleImageId with
    | some t => if t.isEmpty then none else some t
    | none => none
  | none => none

/-- First `titleImageId` found scanning a member list, as the `for` loops of
both endpoints. -/
def scanTid (m : Meta) (l : List GFile) : Option String :=
  l.findSome? (fun f => tidOf m f.id)

/-- The `isTitle`-flagged member list of `GET /api/groups/:groupId` (lines
1715-1744): the title id is scanned from the unsorted member list, the list is
sorted, and each member is flagged by comparison with the scanned id, or with
the first sorted member when no id was scanned. -/
def detailFiles (m : Meta) (disk : List String) (g : String) : List (GFile × Bool) :=
  match scanTid m (detailMembersRaw m disk g) with
  | some t => (detailSortedFiles m disk g).map (fun f => (f, f.id == t))
  | none =>
    (detailSortedFiles m disk g).map
      (fun f => (f, f.id == ((detailSortedFiles m disk g).headD f).id))

/-- The id of the title item `GET /api/images` resolves for a group (lines
1534-1555): scan the sorted member list for a `titleImageId`, default to the
first member's id, then look the id up among the members, falling back to the
first member. -/
def listingTitleId (m : Meta) (disk : List String) (g : String) : Option String :=
  match (listingSortedFiles m disk g).head? with
  | none => none
  | some h =>
    some ((((listingSortedFiles m disk g).find?
      (fun f => f.id == ((scanTid m (listingSortedFiles m disk g)).getD h.id))).getD h).id)

/-! ## Deletion: `DELETE /api/images/:id` -/

/-- Outcome reported by the delete endpoint. -/
inductive DeleteOutcome where
  | groupOk : Nat → DeleteOutcome
  | linkOk : DeleteOutcome
  | fileOk : DeleteOutcome
  | linkMissing : DeleteOutcome
  | fileMissing : DeleteOutcome
deriving DecidableEq, Repr

/-- State after a delete request. -/
structure DeleteResult where
  metadata : Meta
  disk : List String
  outcome : DeleteOutcome

/-- Membership of an on-disk file in a group, as the delete/reorder loops test
it: `metadata[file]?.groupId === groupId`. -/
def diskMemberOf (m : Meta) (g : String) (f : String) : Bool :=
  match getMeta m f with
  | some r => r.groupId == some g
  | none => false

/-- Model of `DELETE /api/images/:id` (lines 1946-2013), dispatching on the id
shape.  The group branch unlinks every on-disk member file and deletes its
record, then deletes every external-link record of the group, counting both;
the link branch deletes one record when present; the file branch unlinks the
file when present and deletes its record if it has one. -/
def deleteItem (m : Meta) (disk : List String) (itemId : String) : DeleteResult :=
  if beginsWith "group-".data itemId.data then
    let victims := disk.filter (fun f => diskMemberOf m itemId f)
    let disk1 := disk.filter (fun f => !(diskMemberOf m itemId f))
    let m1 := m.filter (fun kr => !(memS kr.1 victims))
    let extVictims := m1.filter (fun kr => kr.2.isExternal && kr.2.groupId == some itemId)
    let m2 := m1.filter (fun kr => !(kr.2.isExternal && kr.2.groupId == some itemId))
    { metadata := m2, disk := disk1,
      outcome := DeleteOutcome.groupOk (victims.length + extVictims.length) }
  else if beginsWith "link-".data itemId.data then
    match getMeta m itemId with
    | some _ =>
      { metadata := m.filter (fun kr => !(kr.1 == itemId)), disk := disk,
        outcome := DeleteOutcome.linkOk }
    | none => { metadata := m, disk := disk, outcome := DeleteOutcome.linkMissing }
  else
    if memS itemId disk then
      { metadata := m.filter (fun kr => !(kr.1 == itemId)),
        disk := disk.filter (fun f => !(f == itemId)),
        outcome := DeleteOutcome.fileOk }
    else { metadata := m, disk := disk, outcome := DeleteOutcome.fileMissing }

/-- The members the group-detail endpoint would resolve; empty means it answers
404 "Group not found". -/
def groupMembers (m : Meta) (disk : List String) (g : String) : List GFile :=
  detailMembersRaw m disk g

/-! ## Reordering: `PUT /api/groups/:groupId/order` -/

/-- Index of the first occurrence, as `Array.prototype.indexOf` (absent maps
to `none` rather than -1). -/
def firstIdx (l : List String) (k : String) : Option Nat :=
  match l with
  | [] => none
  | a :: t => if a == k then some 0 else (firstIdx t k).map (fun i => i + 1)

/-- Model of `PUT /api/groups/:groupId/order` (lines 1815-1854): every on-disk
file of the group and every external-link record of the group that appears in
`fileOrder` gets its array position as its new order; everything else is left
as it was. -/
def reorderGroup (m : Meta) (disk : List String) (g : String) (fo : List String) :
    Meta :=
  m.map (fun kr =>
    if (kr.2.groupId == some g) && (memS kr.1 disk || kr.2.isExternal) then
      match firstIdx fo kr.1 with
      | some i => (kr.1, { kr.2 with order := some (i : Int) })
      | none => kr
    else kr)

/-! ## Basic lemmas about the map and membership helpers -/

theorem memS_iff (k : String) (l : List String) : memS k l = true ↔ k ∈ l := by
  induction l with
  | nil => simp [memS]
  | cons a t ih =>
    simp only [memS, List.any_cons] at *
    constructor
    · intro h
      rcases Bool.or_eq_true_iff.1 h with h' | h'
      · exact (beq_iff_eq.1 h') ▸ List.mem_cons_self a t
      · exact List.mem_cons_of_mem a (ih.1 h')
    · intro h
      rcases List.mem_cons.1 h with h' | h'
      · exact Bool.or_eq_true_iff.2 (Or.inl (beq_iff_eq.2 h'.symm))
      · exact Bool.or_eq_true_iff.2 (Or.inr (ih.2 h'))

theorem getMeta_eq_none_iff (m : Meta) (k : String) :
    getMeta m k = none ↔ ∀ kr ∈ m, kr.1 ≠ k := by
  simp only [getMeta, Option.map_eq_none', List.find?_eq_none, beq_iff_eq]

theorem getMeta_mem (m : Meta) (k : String) (r : ItemMeta) (h : getMeta m k = some r) :
    (k, r) ∈ m := by
  simp only [getMeta, Option.map_eq_some'] at h
  obtain ⟨kr, hfind, hsnd⟩ := h
  have hmem := List.mem_of_find?_eq_some hfind
  have hkey : kr.1 = k := by
    have hp := List.find?_some hfind
    simpa using hp
  have hkr : kr = (k, r) := Prod.ext hkey hsnd
  rwa [hkr] at hmem

theorem getMeta_of_mem (m : Meta) (k : String) (r : ItemMeta) (hm : keysNodup m)
    (h : (k, r) ∈ m) : getMeta m k = some r := by
  induction m with
  | nil => cases h
  | cons kr t ih =>
    have hm' : (t.map Prod.fst).Nodup := (List.nodup_cons.1 hm).2
    rcases List.mem_cons.1 h with h' | h'
    · rw [← h']
      simp [getMeta]
    · have hkey : (kr.1 == k) = false := by
        rw [beq_eq_false_iff_ne]
        intro he
        apply (List.nodup_cons.1 hm).1
        rw [he]
        exact List.mem_map_of_mem Prod.fst h'
      have hstep : List.find? (fun kr => kr.1 == k) (kr :: t) =
          List.find? (fun kr => kr.1 == k) t :=
        List.find?_cons_of_neg t (by simp [hkey])
      unfold getMeta
      rw [hstep]
      exact ih hm' h'

theorem getMeta_filter_subset (m : Meta) (p : String × ItemMeta → Bool) (k : String)
    (hm : keysNodup m) (r : ItemMeta) (h : getMeta (m.filter p) k = some r) :
    getMeta m k = some r := by
  have hmem : (k, r) ∈ m.filter p := getMeta_mem _ _ _ h
  exact getMeta_of_mem m k r hm (List.mem_of_mem_filter hmem)

theorem keysNodup_filter (m : Meta) (p : String × ItemMeta → Bool) (hm : keysNodup m) :
    keysNodup (m.filter p) := by
  unfold keysNodup at *
  exact hm.sublist (List.Sublist.map Prod.fst (List.filter_sublist m))

theorem getMeta_filter_of_kept (m : Meta) (p : String × ItemMeta → Bool) (k : String)
    (r : ItemMeta) (hm : keysNodup m) (h : getMeta m k = some r) (hp : p (k, r) = true) :
    getMeta (m.filter p) k = some r :=
  getMeta_of_mem _ _ _ (keysNodup_filter m p hm)
    (List.mem_filter.2 ⟨getMeta_mem _ _ _ h, hp⟩)

theorem getMeta_filter_of_dropped (m : Meta) (p : String × ItemMeta → Bool) (k : String)
    (r : ItemMeta) (hm : keysNodup m) (h : getMeta m k = some r) (hp : p (k, r) = false) :
    getMeta (m.filter p) k = none := by
  rw [getMeta_eq_none_iff]
  intro kr hkr hkey
  have hr : kr.2 = r := by
    have hg := getMeta_of_mem m kr.1 kr.2 hm (List.mem_of_mem_filter hkr)
    rw [hkey, h] at hg
    exact (Option.some.inj hg).symm
  have hpk := List.of_mem_filter hkr
  rw [show kr = (k, r) from Prod.ext hkey hr] at hpk
  rw [hp] at hpk
  cases hpk

theorem getMeta_none_filter (m : Meta) (p : String × ItemMeta → Bool) (k : String)
    (h : getMeta m k = none) : getMeta (m.filter p) k = none := by
  rw [getMeta_eq_none_iff] at *
  exact fun kr hkr => h kr (List.mem_of_mem_filter hkr)

/-! ## Claim C2: metadata load with backup fallback -/

/-- C2: for every state of the primary and backup metadata files, `load()`
never throws (modelled by totality): a valid primary is returned as is; an
absent or unparseable primary with a valid backup returns the backup's map and
rewrites the primary to match; otherwise the empty map is returned. -/
theorem c2_load_never_throws (p b : FState) :
    (∀ m, p = FState.valid m → loadMetadataWithFallback p b = (m, FState.valid m)) ∧
    ((∀ m, p ≠ FState.valid m) → ∀ mb, b = FState.valid mb →
      loadMetadataWithFallback p b = (mb, FState.valid mb)) ∧
    ((∀ m, p ≠ FState.valid m) → (∀ mb, b ≠ FState.valid mb) →
      loadMetadataWithFallback p b = ([], p)) := by
  refine ⟨?_, ?_, ?_⟩
  · intro m hp
    subst hp
    cases b <;> rfl
  · intro hp mb hb
    subst hb
    cases p with
    | valid m => exact absurd rfl (hp m)
    | missing => rfl
    | corrupt => rfl
  · intro hp hb
    cases p with
    | valid m => exact absurd rfl (hp m)
    | missing =>
      cases b with
      | valid mb => exact absurd rfl (hb mb)
      | missing => rfl
      | corrupt => rfl
    | corrupt =>
      cases b with
      | valid mb => exact absurd rfl (hb mb)
      | missing => rfl
      | corrupt => rfl

/-- Witness for C2: a corrupt primary with a valid backup loads the backup and
rewrites the primary. -/
theorem c2_load_never_throws_witness :
    loadMetadataWithFallback FState.corrupt (FState.valid [("a.jpg", ({} : ItemMeta))]) =
      ([("a.jpg", ({} : ItemMeta))], FState.valid [("a.jpg", ({} : ItemMeta))]) :=
  (c2_load_never_throws FState.corrupt (FState.valid [("a.jpg", ({} : ItemMeta))])).2.1
    (fun _ h => by cases h) [("a.jpg", ({} : ItemMeta))] rfl

/-! ## Claim C5: digit-derived ordering from filenames -/

/-- The property "run is the first maximal digit run of l", stated by explicit
decomposition, as the spec's "first run of digits" reads. -/
def FirstRun (l run : List Char) : Prop :=
  ∃ pre rest, l = pre ++ run ++ rest ∧ (∀ c ∈ pre, c.isDigit = false) ∧ run ≠ [] ∧
    (∀ c ∈ run, c.isDigit = true) ∧ (∀ c ∈ rest.head?, c.isDigit = false)

theorem head_dropWhile_false (p : Char → Bool) (l : List Char) (c : Char)
    (h : (l.dropWhile p).head? = some c) : p c = false := by
  induction l with
  | nil => simp at h
  | cons a t ih =>
    by_cases ha : p a = true
    · rw [List.dropWhile_cons, if_pos ha] at h
      exact ih h
    · rw [List.dropWhile_cons, if_neg ha] at h
      simp only [List.head?_cons, Option.some.injEq] at h
      rw [← h]
      exact Bool.eq_false_iff.2 ha

theorem dropWhile_append_all (p : Char → Bool) (a b : List Char)
    (h : ∀ c ∈ a, p c = true) : (a ++ b).dropWhile p = b.dropWhile p := by
  induction a with
  | nil => rfl
  | cons x t ih =>
    rw [List.cons_append, List.dropWhile_cons, if_pos (h x (List.mem_cons_self x t))]
    exact ih (fun c hc => h c (List.mem_cons_of_mem x hc))

theorem takeWhile_append_all (p : Char → Bool) (a b : List Char)
    (h : ∀ c ∈ a, p c = true) : (a ++ b).takeWhile p = a ++ b.takeWhile p := by
  induction a with
  | nil => rfl
  | cons x t ih =>
    rw [List.cons_append, List.takeWhile_cons, if_pos (h x (List.mem_cons_self x t))]
    rw [ih (fun c hc => h c (List.mem_cons_of_mem x hc)), List.cons_append]

theorem takeWhile_eq_nil_of_head (p : Char → Bool) (b : List Char)
    (h : ∀ c ∈ b.head?, p c = false) : b.takeWhile p = [] := by
  cases b with
  | nil => rfl
  | cons x t =>
    rw [List.takeWhile_cons, if_neg]
    simp only [List.head?_cons, Option.mem_def, Option.some.injEq, forall_eq] at h
    simp [h]

theorem firstDigitRun_sound (l : List Char) (h : firstDigitRun l ≠ []) :
    FirstRun l (firstDigitRun l) := by
  refine ⟨l.takeWhile nonDigit, (l.dropWhile nonDigit).dropWhile Char.isDigit, ?_, ?_, h, ?_, ?_⟩
  · rw [List.append_assoc]
    unfold firstDigitRun
    rw [List.takeWhile_append_dropWhile, List.takeWhile_append_dropWhile]
  · intro c hc
    have := List.mem_takeWhile_imp hc
    simpa [nonDigit] using this
  · intro c hc
    exact List.mem_takeWhile_imp hc
  · intro c hc
    exact head_dropWhile_false Char.isDigit (l.dropWhile nonDigit) c hc

theorem firstDigitRun_complete (l run : List Char) (h : FirstRun l run) :
    firstDigitRun l = run := by
  obtain ⟨pre, rest, hl, hpre, hne, hrun, hrest⟩ := h
  unfold firstDigitRun
  rw [hl, List.append_assoc,
    dropWhile_append_all nonDigit pre (run ++ rest)
      (fun c hc => by simp [nonDigit, hpre c hc])]
  cases run with
  | nil => exact absurd rfl hne
  | cons r0 rs =>
    have hr0 : Char.isDigit r0 = true := hrun r0 (List.mem_cons_self r0 rs)
    rw [List.cons_append, List.dropWhile_cons, if_neg (by simp [nonDigit, hr0]),
      ← List.cons_append, takeWhile_append_all Char.isDigit (r0 :: rs) rest hrun,
      takeWhile_eq_nil_of_head Char.isDigit rest hrest, List.append_nil]

/-- C5: the order-extraction function returns `n - 1` exactly when the first
digit run of the filename without its extension parses to `n` with
`1 ≤ n ≤ 9999`, and `none` otherwise; in particular an upload named
`photo_2.jpg` is assigned order 1 whatever the metadata, directory and group
are. -/
theorem c5_extract_order :
    (∀ (s : String) (k : Int),
      extractOrderFromFilename s = some k ↔
        ∃ run : List Char, FirstRun (nameNoExt (baseOf s.data)) run ∧
          1 ≤ digitsToNat run ∧ digitsToNat run ≤ 9999 ∧
          k = (digitsToNat run : Int) - 1) ∧
    (∀ (m : Meta) (disk : List String) (g : Option String),
      assignedOrder m disk "photo_2.jpg" g = 1) := by
  constructor
  · intro s k
    unfold extractOrderFromFilename extractOrderL
    constructor
    · intro h
      by_cases hrun : firstDigitRun (nameNoExt (baseOf s.data)) = []
      · rw [if_pos hrun] at h
        cases h
      · rw [if_neg hrun] at h
        by_cases hrange : 1 ≤ digitsToNat (firstDigitRun (nameNoExt (baseOf s.data))) ∧
            digitsToNat (firstDigitRun (nameNoExt (baseOf s.data))) ≤ 9999
        · rw [if_pos hrange] at h
          simp only [Option.map_eq_some', Option.some.injEq] at h
          obtain ⟨n', hn', hk⟩ := h
          cases hn'
          refine ⟨firstDigitRun (nameNoExt (baseOf s.data)),
            firstDigitRun_sound _ hrun, hrange.1, hrange.2, ?_⟩
          rw [← hk]
          have h1 := hrange.1
          omega
        · rw [if_neg hrange] at h
          cases h
    · rintro ⟨run, hfr, h1, h2, hk⟩
      have heq := firstDigitRun_complete _ _ hfr
      have hne : run ≠ [] := by
        obtain ⟨_, _, _, _, hne, _, _⟩ := hfr
        exact hne
      rw [heq, if_neg hne, if_pos ⟨h1, h2⟩, hk]
      show some ((digitsToNat run - 1 : Nat) : Int) = some ((digitsToNat run : Int) - 1)
      congr 1
      omega
  · intro m disk g
    rfl

/-! ## Suffix and extension lemmas -/

theorem ends_length_le (pat l : List Char) (h : l.drop (l.length - pat.length) = pat) :
    pat.length ≤ l.length := by
  have hlen := congrArg List.length h
  rw [List.length_drop] at hlen
  omega

theorem ends_trans (a b l : List Char) (ha : l.drop (l.length - a.length) = a)
    (hb : l.drop (l.length - b.length) = b) (hab : a.length ≤ b.length) :
    b.drop (b.length - a.length) = a := by
  have hla := ends_length_le a l ha
  have hlb := ends_length_le b l hb
  calc b.drop (b.length - a.length)
      = (l.drop (l.length - b.length)).drop (b.length - a.length) := by rw [hb]
    _ = l.drop ((l.length - b.length) + (b.length - a.length)) :=
        List.drop_drop (b.length - a.length) (l.length - b.length) l
    _ = l.drop (l.length - a.length) := by congr 1; omega
    _ = a := ha

theorem ends_compare (a b l : List Char)
    (ha : l.drop (l.length - a.length) = a) (hb : l.drop (l.length - b.length) = b) :
    a.drop (a.length - b.length) = b ∨ b.drop (b.length - a.length) = a := by
  by_cases h : b.length ≤ a.length
  · exact Or.inl (ends_trans b a l hb ha h)
  · exact Or.inr (ends_trans a b l ha hb (le_of_not_le h))

theorem dropWhile_eq_self_of_all (p : Char → Bool) (l : List Char)
    (h : ∀ c ∈ l, p c = false) : l.dropWhile p = l := by
  cases l with
  | nil => rfl
  | cons a t =>
    rw [List.dropWhile_cons, if_neg]
    simp [h a (List.mem_cons_self a t)]

theorem takeWhile_eq_self_of_all (p : Char → Bool) (l : List Char)
    (h : ∀ c ∈ l, p c = true) : l.takeWhile p = l := by
  induction l with
  | nil => rfl
  | cons a t ih =>
    rw [List.takeWhile_cons, if_pos (h a (List.mem_cons_self a t))]
    rw [ih (fun c hc => h c (List.mem_cons_of_mem a hc))]

theorem baseOf_no_slash (l : List Char) (h : '/' ∉ l) : baseOf l = l := by
  unfold baseOf
  rw [dropWhile_eq_self_of_all _ _ (fun c hc => by
      simp only [decide_eq_false_iff_not]
      intro he
      exact h (he ▸ List.mem_reverse.1 hc)),
    takeWhile_eq_self_of_all _ _ (fun c hc => by
      simp only [decide_eq_true_eq]
      intro he
      exact h (he ▸ List.mem_reverse.1 hc)),
    List.reverse_reverse]

theorem extOf_ends (base : List Char) :
    base.drop (base.length - (extOf base).length) = extOf base := by
  unfold extOf
  by_cases h1 : base = ['.', '.']
  · simp [h1]
  · rw [if_neg h1]
    by_cases h2 : (base.reverse.takeWhile (fun c => c ≠ '.')).length = base.length
    · simp only [if_pos h2, List.length_nil, Nat.sub_zero]
      exact List.drop_length base
    · rw [if_neg h2]
      by_cases h3 : base.length - (base.reverse.takeWhile (fun c => c ≠ '.')).length - 1 = 0
      · simp only [if_pos h3, List.length_nil, Nat.sub_zero]
        exact List.drop_length base
      · rw [if_neg h3, List.length_drop]
        congr 1
        omega

theorem lower_ends (pat l : List Char) (h : l.drop (l.length - pat.length) = pat) :
    (lowerL l).drop ((lowerL l).length - (lowerL pat).length) = lowerL pat := by
  unfold lowerL
  rw [List.length_map, List.length_map, ← List.map_drop, h]

/-- On a slash-free filename (every real directory entry), the regex
`/\.(mp4|webm|ogg|mov|avi)$/i` used to type a default record agrees with
membership of `path.extname(f).toLowerCase()` in the video extension list,
provided the extension is recognized at all. -/
theorem video_type_iff (f : String) (hf : isMediaName f = true) (hs : '/' ∉ f.data) :
    videoRegexTest f = true ↔ extLowerOf f ∈ videoExts := by
  have hbase : baseOf f.data = f.data := baseOf_no_slash f.data hs
  have hE1 : f.data.drop (f.data.length - (extOf f.data).length) = extOf f.data :=
    extOf_ends f.data
  have hEnds : (lowerL f.data).drop
      ((lowerL f.data).length - (extLowerOf f).length) = extLowerOf f := by
    unfold extLowerOf
    rw [hbase]
    exact lower_ends (extOf f.data) f.data hE1
  have hmem : extLowerOf f ∈ mediaExts := by
    rw [isMediaName, List.any_eq_true] at hf
    obtain ⟨e, hemem, he⟩ := hf
    rw [beq_iff_eq] at he
    exact he ▸ hemem
  constructor
  · intro hreg
    rw [videoRegexTest, List.any_eq_true] at hreg
    obtain ⟨v, hvmem, hvends⟩ := hreg
    rw [endsWithL, decide_eq_true_eq] at hvends
    have hcmp := ends_compare (extLowerOf f) v (lowerL f.data) hEnds hvends
    revert hcmp
    generalize extLowerOf f = E at hmem ⊢
    intro hcmp
    simp only [mediaExts, imageExts, videoExts, List.mem_append, List.mem_cons,
      List.not_mem_nil, or_false] at hmem
    simp only [videoExts, List.mem_cons, List.not_mem_nil, or_false] at hvmem
    rcases hmem with himg | hvid
    · exfalso
      rcases himg with rfl | rfl | rfl | rfl | rfl <;>
        rcases hvmem with rfl | rfl | rfl | rfl | rfl <;>
        exact absurd hcmp (by decide)
    · rcases hvid with rfl | rfl | rfl | rfl | rfl <;> decide
  · intro hv
    rw [videoRegexTest, List.any_eq_true]
    refine ⟨extLowerOf f, hv, ?_⟩
    rw [endsWithL, decide_eq_true_eq]
    exact hEnds

/-! ## Lookup over append and keyed maps -/

theorem getMeta_append_left (a b : Meta) (k : String) (r : ItemMeta)
    (h : getMeta a k = some r) : getMeta (a ++ b) k = some r := by
  unfold getMeta at *
  rw [List.find?_append]
  rw [Option.map_eq_some'] at h
  obtain ⟨kr, hfind, hsnd⟩ := h
  rw [hfind]
  simp [hsnd]

theorem getMeta_append_right (a b : Meta) (k : String)
    (h : getMeta a k = none) : getMeta (a ++ b) k = getMeta b k := by
  unfold getMeta at *
  rw [List.find?_append]
  rw [Option.map_eq_none'] at h
  rw [h]
  rfl

theorem getMeta_keyed_of_mem (l : List String) (g : String → ItemMeta) (k : String)
    (h : k ∈ l) : getMeta (l.map (fun f => (f, g f))) k = some (g k) := by
  induction l with
  | nil => cases h
  | cons a t ih =>
    rcases List.mem_cons.1 h with h' | h'
    · subst h'
      simp [getMeta]
    · by_cases ha : a = k
      · subst ha
        simp [getMeta]
      · rw [List.map_cons]
        unfold getMeta
        rw [List.find?_cons_of_neg _ (by simpa using ha)]
        exact ih h'

theorem getMeta_keyed_of_not_mem (l : List String) (g : String → ItemMeta) (k : String)
    (h : k ∉ l) : getMeta (l.map (fun f => (f, g f))) k = none := by
  rw [getMeta_eq_none_iff]
  intro kr hkr
  obtain ⟨x, hx, hxe⟩ := List.mem_map.1 hkr
  intro hke
  apply h
  rw [← hke, ← hxe]
  exact hx

/-! ## Reconciliation lemmas -/

theorem restore_nil (m : Meta) (disk : List String) :
    restoreIfEmpty m disk [] = (m, disk) := by
  unfold restoreIfEmpty
  by_cases h : (mediaFiles disk).isEmpty <;> simp [h]

theorem restore_disk_mono (m : Meta) (disk : List String) (bks : List Backup)
    (f : String) (hf : f ∈ disk) : f ∈ (restoreIfEmpty m disk bks).2 := by
  unfold restoreIfEmpty
  by_cases h : (mediaFiles disk).isEmpty
  · cases bks with
    | nil => simpa [h]
    | cons b t =>
      simp only [h, if_true]
      exact List.mem_append_left _ hf
  · simpa [h]

/-! ## Claim C1: startup reconciliation -/

/-- C1: with no backup snapshot to restore, startup reconciliation removes
exactly the metadata entries that are neither external nor named by an on-disk
file of recognized extension, keeps the rest untouched, and synthesizes for
every uncovered on-disk media file a default record with category `fun`, empty
description, the file's modification time, type `video` exactly for video
extensions, no group, and order 999; the reconciliation never removes an
on-disk file, whatever backups exist.  The hypothesis `hsl` states that
directory entries contain no path separator, as `fs.readdirSync` guarantees. -/
theorem c1_sync_reconcile (m : Meta) (disk : List String) (mt : String → String)
    (hm : keysNodup m) (hsl : ∀ f ∈ disk, '/' ∉ f.data) :
    ((syncMetadataWithFiles m disk mt []).disk = disk ∧
      ∀ backups : List Backup, ∀ f ∈ disk,
        f ∈ (syncMetadataWithFiles m disk mt backups).disk) ∧
    (∀ k r, getMeta m k = some r →
      (getMeta (syncMetadataWithFiles m disk mt []).metadata k = none ↔
        r.isExternal = false ∧ k ∉ mediaFiles disk)) ∧
    (∀ k r, getMeta m k = some r → (r.isExternal = true ∨ k ∈ mediaFiles disk) →
      getMeta (syncMetadataWithFiles m disk mt []).metadata k = some r) ∧
    (∀ f ∈ mediaFiles disk, getMeta m f = none →
      ∃ r', getMeta (syncMetadataWithFiles m disk mt []).metadata f = some r' ∧
        r'.category = "fun" ∧ r'.description = "" ∧ r'.uploadDate = mt f ∧
        r'.type = (if extLowerOf f ∈ videoExts then "video" else "image") ∧
        r'.groupId = none ∧ r'.order = some 999 ∧ r'.isExternal = false) := by
  have hmeta : (syncMetadataWithFiles m disk mt []).metadata = (reconcileCore m disk mt).1 := by
    unfold syncMetadataWithFiles
    rw [restore_nil]
  have hdisk : (syncMetadataWithFiles m disk mt []).disk = disk := by
    unfold syncMetadataWithFiles
    rw [restore_nil]
  refine ⟨⟨hdisk, ?_⟩, ?_, ?_, ?_⟩
  · intro backups f hf
    unfold syncMetadataWithFiles
    exact restore_disk_mono m disk backups f hf
  · intro k r hk
    rw [hmeta]
    show getMeta (m.filter _ ++ _) k = none ↔ _
    by_cases hcond : (r.isExternal || memS k (mediaFiles disk)) = true
    · have hkept := getMeta_filter_of_kept m
        (fun kr => kr.2.isExternal || memS kr.1 (mediaFiles disk)) k r hm hk hcond
      rw [getMeta_append_left _ _ _ _ hkept]
      simp only [Option.some_ne_none, false_iff]
      intro hcontra
      rcases Bool.or_eq_true_iff.1 hcond with he | hmem
      · rw [hcontra.1] at he
        cases he
      · exact hcontra.2 ((memS_iff k (mediaFiles disk)).1 hmem)
    · have hcond' := Bool.or_eq_false_iff.1 (Bool.eq_false_iff.2 hcond)
      have hdropped := getMeta_filter_of_dropped m
        (fun kr => kr.2.isExternal || memS kr.1 (mediaFiles disk)) k r hm hk
        (Bool.eq_false_iff.2 hcond)
      rw [getMeta_append_right _ _ _ hdropped]
      have hnotin : k ∉ mediaFiles disk := by
        intro hmem
        rw [(memS_iff k (mediaFiles disk)).2 hmem] at hcond'
        cases hcond'.2
      rw [getMeta_keyed_of_not_mem]
      · simp [hcond'.1, hnotin]
      · intro hmem
        exact hnotin (List.mem_of_mem_filter hmem)
  · intro k r hk hkeep
    rw [hmeta]
    show getMeta (m.filter _ ++ _) k = some r
    apply getMeta_append_left
    apply getMeta_filter_of_kept m _ k r hm hk
    rcases hkeep with he | hmem
    · simp [he]
    · simp [(memS_iff k (mediaFiles disk)).2 hmem]
  · intro f hf hnone
    rw [hmeta]
    show ∃ r', getMeta (m.filter _ ++ _) f = some r' ∧ _
    have hkeptnone : getMeta
        (m.filter (fun kr => kr.2.isExternal || memS kr.1 (mediaFiles disk))) f = none :=
      getMeta_none_filter m _ f hnone
    have htoadd : f ∈ (mediaFiles disk).filter
        (fun f => (getMeta (m.filter
          (fun kr => kr.2.isExternal || memS kr.1 (mediaFiles disk))) f).isNone) := by
      rw [List.mem_filter]
      exact ⟨hf, by rw [Option.isNone_iff_eq_none]; exact hkeptnone⟩
    refine ⟨defaultRecFor f (mt f), ?_, rfl, rfl, rfl, ?_, rfl, rfl, rfl⟩
    · rw [getMeta_append_right _ _ _ hkeptnone]
      exact getMeta_keyed_of_mem _ _ f htoadd
    · show (if videoRegexTest f then "video" else "image") = _
      have hfm : isMediaName f = true := List.of_mem_filter hf
      have hfd : f ∈ disk := List.mem_of_mem_filter hf
      by_cases hv : extLowerOf f ∈ videoExts
      · rw [if_pos ((video_type_iff f hfm (hsl f hfd)).2 hv), if_pos hv]
      · rw [if_neg, if_neg hv]
        intro hreg
        exact hv ((video_type_iff f hfm (hsl f hfd)).1 hreg)

/-- Witness for C1: a concrete metadata map holding an orphaned record, an
external link, and a covered file, against a two-file directory. -/
theorem c1_sync_reconcile_witness :
    ((syncMetadataWithFiles
        [("gone.png", ({} : ItemMeta)),
         ("link-1", { isExternal := true : ItemMeta }),
         ("kept.jpg", ({} : ItemMeta))]
        ["kept.jpg", "new.mp4"] (fun _ => "2024-01-01") []).disk = ["kept.jpg", "new.mp4"] ∧
      ∀ backups : List Backup, ∀ f ∈ ["kept.jpg", "new.mp4"],
        f ∈ (syncMetadataWithFiles
          [("gone.png", ({} : ItemMeta)),
           ("link-1", { isExternal := true : ItemMeta }),
           ("kept.jpg", ({} : ItemMeta))]
          ["kept.jpg", "new.mp4"] (fun _ => "2024-01-01") backups).disk) ∧
    (∀ k r, getMeta
        [("gone.png", ({} : ItemMeta)),
         ("link-1", { isExternal := true : ItemMeta }),
         ("kept.jpg", ({} : ItemMeta))] k = some r →
      (getMeta (syncMetadataWithFiles
          [("gone.png", ({} : ItemMeta)),
           ("link-1", { isExternal := true : ItemMeta }),
           ("kept.jpg", ({} : ItemMeta))]
          ["kept.jpg", "new.mp4"] (fun _ => "2024-01-01") []).metadata k = none ↔
        r.isExternal = false ∧ k ∉ mediaFiles ["kept.jpg", "new.mp4"])) ∧
    (∀ k r, getMeta
        [("gone.png", ({} : ItemMeta)),
         ("link-1", { isExternal := true : ItemMeta }),
         ("kept.jpg", ({} : ItemMeta))] k = some r →
      (r.isExternal = true ∨ k ∈ mediaFiles ["kept.jpg", "new.mp4"]) →
      getMeta (syncMetadataWithFiles
          [("gone.png", ({} : ItemMeta)),
           ("link-1", { isExternal := true : ItemMeta }),
           ("kept.jpg", ({} : ItemMeta))]
          ["kept.jpg", "new.mp4"] (fun _ => "2024-01-01") []).metadata k = some r) ∧
    (∀ f ∈ mediaFiles ["kept.jpg", "new.mp4"], getMeta
        [("gone.png", ({} : ItemMeta)),
         ("link-1", { isExternal := true : ItemMeta }),
         ("kept.jpg", ({} : ItemMeta))] f = none →
      ∃ r', getMeta (syncMetadataWithFiles
          [("gone.png", ({} : ItemMeta)),
           ("link-1", { isExternal := true : ItemMeta }),
           ("kept.jpg", ({} : ItemMeta))]
          ["kept.jpg", "new.mp4"] (fun _ => "2024-01-01") []).metadata f = some r' ∧
        r'.category = "fun" ∧ r'.description = "" ∧ r'.uploadDate = (fun _ => "2024-01-01") f ∧
        r'.type = (if extLowerOf f ∈ videoExts then "video" else "image") ∧
        r'.groupId = none ∧ r'.order = some 999 ∧ r'.isExternal = false) :=
  c1_sync_reconcile
    [("gone.png", ({} : ItemMeta)),
     ("link-1", { isExternal := true : ItemMeta }),
     ("kept.jpg", ({} : ItemMeta))]
    ["kept.jpg", "new.mp4"] (fun _ => "2024-01-01")
    (by decide) (by decide)

/-! ## Claim C9: reconciliation idempotence -/

theorem reconcileCore_fixed (m : Meta) (disk : List String) (mt : String → String) :
    reconcileCore (reconcileCore m disk mt).1 disk mt = ((reconcileCore m disk mt).1, false) := by
  have hcov : ∀ f ∈ mediaFiles disk, getMeta (reconcileCore m disk mt).1 f ≠ none := by
    intro f hf
    show getMeta (m.filter _ ++ _) f ≠ none
    cases hk : getMeta (m.filter (fun kr => kr.2.isExternal || memS kr.1 (mediaFiles disk))) f with
    | some r =>
      rw [getMeta_append_left _ _ _ _ hk]
      simp
    | none =>
      rw [getMeta_append_right _ _ _ hk]
      rw [getMeta_keyed_of_mem]
      · simp
      · rw [List.mem_filter]
        exact ⟨hf, by rw [Option.isNone_iff_eq_none]; exact hk⟩
  have hall : ∀ kr ∈ (reconcileCore m disk mt).1,
      (kr.2.isExternal || memS kr.1 (mediaFiles disk)) = true := by
    intro kr hkr
    rcases List.mem_append.1 hkr with hk | ha
    · have hp := List.of_mem_filter hk
      simpa using hp
    · obtain ⟨f, hfmem, hfe⟩ := List.mem_map.1 ha
      rw [← hfe]
      rw [Bool.or_eq_true_iff]
      right
      exact (memS_iff _ _).2 (List.mem_of_mem_filter hfmem)
  have hkept2 : (reconcileCore m disk mt).1.filter
      (fun kr => kr.2.isExternal || memS kr.1 (mediaFiles disk)) = (reconcileCore m disk mt).1 :=
    List.filter_eq_self.2 hall
  have htoadd2 : (mediaFiles disk).filter
      (fun f => (getMeta (reconcileCore m disk mt).1 f).isNone) = [] := by
    rw [List.filter_eq_nil_iff]
    intro f hf hcontra
    exact hcov f hf (Option.isNone_iff_eq_none.1 hcontra)
  show ((reconcileCore m disk mt).1.filter
      (fun kr => kr.2.isExternal || memS kr.1 (mediaFiles disk)) ++
      ((mediaFiles disk).filter (fun f => (getMeta ((reconcileCore m disk mt).1.filter
        (fun kr => kr.2.isExternal || memS kr.1 (mediaFiles disk))) f).isNone)).map
        (fun f => (f, defaultRecFor f (mt f))),
      (!((reconcileCore m disk mt).1.filter
        (fun kr => kr.2.isExternal || memS kr.1 (mediaFiles disk))).length ==
        (reconcileCore m disk mt).1.length) ||
      (!((mediaFiles disk).filter (fun f => (getMeta ((reconcileCore m disk mt).1.filter
        (fun kr => kr.2.isExternal || memS kr.1 (mediaFiles disk))) f).isNone)).isEmpty)) =
    ((reconcileCore m disk mt).1, false)
  rw [hkept2, htoadd2]
  simp

theorem reconcileCore_fixed_fst (m : Meta) (disk : List String) (mt : String → String) :
    (reconcileCore (reconcileCore m disk mt).1 disk mt).1 = (reconcileCore m disk mt).1 := by
  rw [reconcileCore_fixed]

theorem reconcileCore_fixed_snd (m : Meta) (disk : List String) (mt : String → String) :
    (reconcileCore (reconcileCore m disk mt).1 disk mt).2 = false := by
  rw [reconcileCore_fixed]

theorem restore_not_empty (m : Meta) (disk : List String) (bks : List Backup)
    (h : (mediaFiles disk).isEmpty = false) : restoreIfEmpty m disk bks = (m, disk) := by
  unfold restoreIfEmpty
  simp [h]

theorem restore_empty_cons (m : Meta) (disk : List String) (b : Backup) (t : List Backup)
    (h : (mediaFiles disk).isEmpty = true) :
    restoreIfEmpty m disk (b :: t) =
      (b.meta.getD m, disk ++ b.files.filter (fun f => !(memS f disk))) := by
  unfold restoreIfEmpty
  simp [h]

theorem filter_not_mem_self (files disk : List String) :
    files.filter
      (fun f => !(memS f (disk ++ files.filter (fun f => !(memS f disk))))) = [] := by
  rw [List.filter_eq_nil_iff]
  intro f hf hcontra
  have hmem : f ∈ disk ++ files.filter (fun f => !(memS f disk)) := by
    by_cases hd : f ∈ disk
    · exact List.mem_append_left _ hd
    · refine List.mem_append_right _ (List.mem_filter.2 ⟨hf, ?_⟩)
      rw [Bool.not_eq_true', Bool.eq_false_iff]
      intro hms
      exact hd ((memS_iff f disk).1 hms)
  have hms := (memS_iff f _).2 hmem
  simp [hms] at hcontra

/-- C9 counterexample: with an empty uploads directory and a backup snapshot
whose metadata copy holds a non-external record but whose uploads copy is
empty, the restore branch retriggers on the second run, re-imports the stale
record and prunes it again, so the second run reports an update (and saves)
instead of "no update needed". -/
theorem c9_counterexample :
    (syncMetadataWithFiles
      (syncMetadataWithFiles [] [] (fun _ => "t")
        [{ files := [], meta := some [("a.jpg", ({} : ItemMeta))] }]).metadata
      (syncMetadataWithFiles [] [] (fun _ => "t")
        [{ files := [], meta := some [("a.jpg", ({} : ItemMeta))] }]).disk
      (fun _ => "t")
      [{ files := [], meta := some [("a.jpg", ({} : ItemMeta))] }]).updated = true := by
  decide

/-- C9 amended: a second reconciliation run immediately after a first always
returns the same metadata map; and it reports no update (so performs no save)
whenever the restore branch cannot retrigger, i.e. when the directory holds a
media file after the first run or no backup snapshot exists.  (When uploads
stay media-free next to a backup whose metadata copy holds non-external
entries, each run re-restores and re-prunes, reporting an update every time.) -/
theorem c9_amended_idempotent (m : Meta) (disk : List String) (mt : String → String)
    (backups : List Backup) :
    (syncMetadataWithFiles (syncMetadataWithFiles m disk mt backups).metadata
        (syncMetadataWithFiles m disk mt backups).disk mt backups).metadata =
      (syncMetadataWithFiles m disk mt backups).metadata ∧
    (mediaFiles (syncMetadataWithFiles m disk mt backups).disk ≠ [] ∨ backups = [] →
      (syncMetadataWithFiles (syncMetadataWithFiles m disk mt backups).metadata
          (syncMetadataWithFiles m disk mt backups).disk mt backups).updated = false) := by
  have hR1d : (syncMetadataWithFiles m disk mt backups).disk =
      (restoreIfEmpty m disk backups).2 := rfl
  have hR1m : (syncMetadataWithFiles m disk mt backups).metadata =
      (reconcileCore (restoreIfEmpty m disk backups).1
        (restoreIfEmpty m disk backups).2 mt).1 := rfl
  by_cases hE : (mediaFiles (restoreIfEmpty m disk backups).2).isEmpty = true
  · cases backups with
    | nil =>
      have hrest1 : restoreIfEmpty m disk ([] : List Backup) = (m, disk) := restore_nil m disk
      have hrest2 : restoreIfEmpty (syncMetadataWithFiles m disk mt []).metadata
          (syncMetadataWithFiles m disk mt []).disk ([] : List Backup) =
          ((syncMetadataWithFiles m disk mt []).metadata,
            (syncMetadataWithFiles m disk mt []).disk) :=
        restore_nil _ _
      constructor
      · show (reconcileCore (restoreIfEmpty (syncMetadataWithFiles m disk mt []).metadata
            (syncMetadataWithFiles m disk mt []).disk []).1
            (restoreIfEmpty (syncMetadataWithFiles m disk mt []).metadata
              (syncMetadataWithFiles m disk mt []).disk []).2 mt).1 = _
        rw [hrest2, hR1d, hR1m, hrest1]
        exact reconcileCore_fixed_fst m disk mt
      · intro _
        show (reconcileCore (restoreIfEmpty (syncMetadataWithFiles m disk mt []).metadata
            (syncMetadataWithFiles m disk mt []).disk []).1
            (restoreIfEmpty (syncMetadataWithFiles m disk mt []).metadata
              (syncMetadataWithFiles m disk mt []).disk []).2 mt).2 = false
        rw [hrest2, hR1d, hR1m, hrest1]
        exact reconcileCore_fixed_snd m disk mt
    | cons b t =>
      have hdiskE : (mediaFiles disk).isEmpty = true := by
        by_cases hdE : (mediaFiles disk).isEmpty = true
        · exact hdE
        · exfalso
          have h2 : (restoreIfEmpty m disk (b :: t)).2 = disk := by
            rw [restore_not_empty m disk (b :: t) (Bool.not_eq_true _ ▸ hdE :
              (mediaFiles disk).isEmpty = false)]
          rw [h2] at hE
          exact hdE hE
      have hrest1 := restore_empty_cons m disk b t hdiskE
      have hd1 : (restoreIfEmpty m disk (b :: t)).2 =
          disk ++ b.files.filter (fun f => !(memS f disk)) := by rw [hrest1]
      have hm1 : (restoreIfEmpty m disk (b :: t)).1 = b.meta.getD m := by rw [hrest1]
      have hrest2 : restoreIfEmpty (syncMetadataWithFiles m disk mt (b :: t)).metadata
          (syncMetadataWithFiles m disk mt (b :: t)).disk (b :: t) =
          (b.meta.getD (syncMetadataWithFiles m disk mt (b :: t)).metadata,
            (restoreIfEmpty m disk (b :: t)).2) := by
        rw [hR1d, restore_empty_cons _ _ b t hE]
        rw [hd1, filter_not_mem_self b.files disk, List.append_nil]
      constructor
      · show (reconcileCore (restoreIfEmpty (syncMetadataWithFiles m disk mt (b :: t)).metadata
            (syncMetadataWithFiles m disk mt (b :: t)).disk (b :: t)).1
            (restoreIfEmpty (syncMetadataWithFiles m disk mt (b :: t)).metadata
              (syncMetadataWithFiles m disk mt (b :: t)).disk (b :: t)).2 mt).1 = _
        rw [hrest2]
        cases hbm : b.meta with
        | none =>
          show (reconcileCore ((none : Option Meta).getD
              (syncMetadataWithFiles m disk mt (b :: t)).metadata)
              (restoreIfEmpty m disk (b :: t)).2 mt).1 = _
          show (reconcileCore (syncMetadataWithFiles m disk mt (b :: t)).metadata
              (restoreIfEmpty m disk (b :: t)).2 mt).1 = _
          rw [hR1m]
          exact reconcileCore_fixed_fst _ _ _
        | some mb =>
          show (reconcileCore mb (restoreIfEmpty m disk (b :: t)).2 mt).1 = _
          rw [hR1m, hm1, hbm]
          rfl
      · intro hy
        rcases hy with hne | hnil
        · exfalso
          apply hne
          rw [hR1d]
          exact List.isEmpty_iff.1 hE
        · cases hnil
  · have hE' : (mediaFiles (restoreIfEmpty m disk backups).2).isEmpty = false :=
      Bool.not_eq_true _ ▸ hE
    have hrest2 : restoreIfEmpty (syncMetadataWithFiles m disk mt backups).metadata
        (syncMetadataWithFiles m disk mt backups).disk backups =
        ((syncMetadataWithFiles m disk mt backups).metadata,
          (restoreIfEmpty m disk backups).2) := by
      rw [hR1d]
      exact restore_not_empty _ _ _ hE'
    constructor
    · show (reconcileCore (restoreIfEmpty (syncMetadataWithFiles m disk mt backups).metadata
          (syncMetadataWithFiles m disk mt backups).disk backups).1
          (restoreIfEmpty (syncMetadataWithFiles m disk mt backups).metadata
            (syncMetadataWithFiles m disk mt backups).disk backups).2 mt).1 = _
      rw [hrest2, hR1m]
      exact reconcileCore_fixed_fst _ _ _
    · intro _
      show (reconcileCore (restoreIfEmpty (syncMetadataWithFiles m disk mt backups).metadata
          (syncMetadataWithFiles m disk mt backups).disk backups).1
          (restoreIfEmpty (syncMetadataWithFiles m disk mt backups).metadata
            (syncMetadataWithFiles m disk mt backups).disk backups).2 mt).2 = false
      rw [hrest2, hR1m]
      exact reconcileCore_fixed_snd _ _ _

/-- Witness for C9: a run with no backups at all never changes anything the
second time. -/
theorem c9_amended_idempotent_witness :
    (syncMetadataWithFiles
        (syncMetadataWithFiles [("x.jpg", ({} : ItemMeta))] ["y.png"] (fun _ => "t") []).metadata
        (syncMetadataWithFiles [("x.jpg", ({} : ItemMeta))] ["y.png"] (fun _ => "t") []).disk
        (fun _ => "t") []).metadata =
      (syncMetadataWithFiles [("x.jpg", ({} : ItemMeta))] ["y.png"] (fun _ => "t") []).metadata ∧
    (syncMetadataWithFiles
        (syncMetadataWithFiles [("x.jpg", ({} : ItemMeta))] ["y.png"] (fun _ => "t") []).metadata
        (syncMetadataWithFiles [("x.jpg", ({} : ItemMeta))] ["y.png"] (fun _ => "t") []).disk
        (fun _ => "t") []).updated = false :=
  ⟨(c9_amended_idempotent [("x.jpg", ({} : ItemMeta))] ["y.png"] (fun _ => "t") []).1,
    (c9_amended_idempotent [("x.jpg", ({} : ItemMeta))] ["y.png"] (fun _ => "t") []).2
      (Or.inr rfl)⟩

/-! ## The comparator is a total preorder -/

theorem lexLe_total (a b : List Char) : lexLe a b = true ∨ lexLe b a = true := by
  induction a generalizing b with
  | nil => exact Or.inl rfl
  | cons x xs ih =>
    cases b with
    | nil => exact Or.inr rfl
    | cons y ys =>
      by_cases hxy : x < y
      · left
        simp [lexLe, hxy]
      · by_cases hyx : y < x
        · right
          simp [lexLe, hyx]
        · rcases ih ys with h | h
          · left
            simp [lexLe, hxy, hyx, h]
          · right
            simp [lexLe, hxy, hyx, h]

theorem lexLe_trans (a b c : List Char) (h1 : lexLe a b = true) (h2 : lexLe b c = true) :
    lexLe a c = true := by
  induction a generalizing b c with
  | nil => rfl
  | cons x xs ih =>
    cases b with
    | nil => simp [lexLe] at h1
    | cons y ys =>
      cases c with
      | nil => simp [lexLe] at h2
      | cons z zs =>
        by_cases hxy : x < y
        · by_cases hyz : y < z
          · simp [lexLe, lt_trans hxy hyz]
          · by_cases hzy : z < y
            · simp [lexLe, hyz, hzy] at h2
            · have hyzeq : y = z := le_antisymm (not_lt.1 hzy) (not_lt.1 hyz)
              simp [lexLe, hyzeq ▸ hxy]
        · by_cases hyx : y < x
          · simp [lexLe, hxy, hyx] at h1
          · have hxyeq : x = y := le_antisymm (not_lt.1 hyx) (not_lt.1 hxy)
            rw [lexLe, if_neg hxy, if_neg hyx] at h1
            by_cases hyz : y < z
            · simp [lexLe, hxyeq ▸ hyz]
            · by_cases hzy : z < y
              · simp [lexLe, hyz, hzy] at h2
              · have hyzeq : y = z := le_antisymm (not_lt.1 hzy) (not_lt.1 hyz)
                rw [lexLe, if_neg hyz, if_neg hzy] at h2
                have hxz : ¬x < z := hyzeq ▸ hxyeq ▸ lt_irrefl x
                have hzx : ¬z < x := hyzeq ▸ hxyeq ▸ lt_irrefl x
                rw [lexLe, if_neg hxz, if_neg hzx]
                exact ih ys zs h1 h2

theorem string_eq_of_data (s t : String) (h : s.data = t.data) : s = t := by
  cases s
  cases t
  simp_all

theorem lexLe_antisymm (a b : List Char) (h1 : lexLe a b = true) (h2 : lexLe b a = true) :
    a = b := by
  induction a generalizing b with
  | nil =>
    cases b with
    | nil => rfl
    | cons y ys => simp [lexLe] at h2
  | cons x xs ih =>
    cases b with
    | nil => simp [lexLe] at h1
    | cons y ys =>
      by_cases hxy : x < y
      · simp [lexLe, hxy, lt_asymm hxy] at h2
      · by_cases hyx : y < x
        · simp [lexLe, hxy, hyx] at h1
        · have hxyeq : x = y := le_antisymm (not_lt.1 hyx) (not_lt.1 hxy)
          rw [lexLe, if_neg hxy, if_neg hyx] at h1
          rw [lexLe, if_neg hyx, if_neg hxy] at h2
          rw [hxyeq, ih ys h1 h2]

instance : IsTotal GFile fileLE :=
  ⟨fun a b => by
    unfold fileLE
    rcases lt_trichotomy a.ord b.ord with h | h | h
    · exact Or.inl (Or.inl h)
    · rcases lexLe_total a.id.data b.id.data with hl | hl
      · exact Or.inl (Or.inr ⟨h, hl⟩)
      · exact Or.inr (Or.inr ⟨h.symm, hl⟩)
    · exact Or.inr (Or.inl h)⟩

instance : IsTrans GFile fileLE :=
  ⟨fun a b c hab hbc => by
    unfold fileLE at *
    rcases hab with h1 | ⟨he1, hl1⟩
    · rcases hbc with h2 | ⟨he2, hl2⟩
      · exact Or.inl (lt_trans h1 h2)
      · exact Or.inl (he2 ▸ h1)
    · rcases hbc with h2 | ⟨he2, hl2⟩
      · exact Or.inl (he1 ▸ h2)
      · exact Or.inr ⟨he1.trans he2, lexLe_trans _ _ _ hl1 hl2⟩⟩

instance : IsAntisymm GFile fileLE :=
  ⟨fun a b hab hba => by
    unfold fileLE at hab hba
    rcases hab with h1 | ⟨he1, hl1⟩
    · rcases hba with h2 | ⟨he2, hl2⟩
      · exact absurd h2 (lt_asymm h1)
      · exact absurd h1 (he2 ▸ lt_irrefl b.ord)
    · rcases hba with h2 | ⟨he2, hl2⟩
      · exact absurd h2 (he1 ▸ lt_irrefl b.ord)
      · have hid : a.id = b.id := string_eq_of_data _ _ (lexLe_antisymm _ _ hl1 hl2)
        cases a
        cases b
        simp only at hid he1
        rw [hid, he1]⟩

/-! ## Claim C3: display and export ordering -/

/-- C3: the member lists produced for the group-detail endpoint, the top-level
listing, and the zip export are each sorted so that the pair `(order, id)` is
non-decreasing — order ascending with a default of 999 baked in by the member
builders, ties broken by ascending id — and each is a permutation of the
unsorted member list it came from. -/
theorem c3_sorted_members (m : Meta) (disk : List String) (g : String) :
    List.Sorted fileLE (detailSortedFiles m disk g) ∧
    List.Perm (detailSortedFiles m disk g) (detailMembersRaw m disk g) ∧
    List.Sorted fileLE (listingSortedFiles m disk g) ∧
    List.Perm (listingSortedFiles m disk g) (listingMembersRaw m disk g) ∧
    List.Sorted fileLE (zipSortedItems m disk g) ∧
    List.Perm (zipSortedItems m disk g) (physMembers m disk g ++ extMembers m g) :=
  ⟨List.sorted_insertionSort fileLE _, List.perm_insertionSort fileLE _,
   List.sorted_insertionSort fileLE _, List.perm_insertionSort fileLE _,
   List.sorted_insertionSort fileLE _, List.perm_insertionSort fileLE _⟩

/-! ## Claim C7: fallback order assignment for grouped ingestion -/

theorem maxStep_ge (m : Meta) (g : String) (acc : Int) (f : String) :
    acc ≤ maxStep m g acc f := by
  unfold maxStep
  cases h : getMeta m f with
  | none => exact le_refl acc
  | some r =>
    show acc ≤ if r.groupId == some g then
        (match r.order with
         | some v => max acc v
         | none => acc)
      else acc
    by_cases hg : r.groupId == some g
    · rw [if_pos hg]
      cases hv : r.order with
      | none => exact le_refl acc
      | some v => exact le_max_left acc v
    · rw [if_neg hg]

theorem maxStep_member (m : Meta) (g : String) (acc : Int) (f : String) (r : ItemMeta)
    (v : Int) (hr : getMeta m f = some r) (hg : (r.groupId == some g) = true)
    (hv : r.order = some v) : maxStep m g acc f = max acc v := by
  unfold maxStep
  rw [hr]
  show (if r.groupId == some g then
      (match r.order with
       | some v => max acc v
       | none => acc)
    else acc) = max acc v
  rw [if_pos hg, hv]

theorem foldl_maxStep_ge (m : Meta) (g : String) (disk : List String) (acc : Int) :
    acc ≤ disk.foldl (maxStep m g) acc := by
  induction disk generalizing acc with
  | nil => exact le_refl acc
  | cons f t ih =>
    rw [List.foldl_cons]
    exact le_trans (maxStep_ge m g acc f) (ih _)

theorem foldl_maxStep_bound (m : Meta) (g : String) (disk : List String)
    (f : String) (r : ItemMeta) (hr : getMeta m f = some r)
    (hg : (r.groupId == some g) = true) (v : Int) (hv : r.order = some v) :
    ∀ acc : Int, f ∈ disk → v ≤ disk.foldl (maxStep m g) acc := by
  induction disk with
  | nil =>
    intro acc hf
    cases hf
  | cons x t ih =>
    intro acc hf
    rw [List.foldl_cons]
    rcases List.mem_cons.1 hf with rfl | hf'
    · refine le_trans ?_ (foldl_maxStep_ge m g t _)
      rw [maxStep_member m g acc f r v hr hg hv]
      exact le_max_right acc v
    · exact ih _ hf'

theorem foldl_maxStep_reached (m : Meta) (g : String) (disk : List String) (acc : Int) :
    disk.foldl (maxStep m g) acc = acc ∨
      ∃ f ∈ disk, ∃ r, getMeta m f = some r ∧ (r.groupId == some g) = true ∧
        r.order = some (disk.foldl (maxStep m g) acc) := by
  induction disk generalizing acc with
  | nil => exact Or.inl rfl
  | cons x t ih =>
    rw [List.foldl_cons]
    rcases ih (maxStep m g acc x) with heq | hwit
    · rw [heq]
      cases hx : getMeta m x with
      | none =>
        left
        unfold maxStep
        rw [hx]
      | some r =>
        by_cases hg : (r.groupId == some g) = true
        · cases hv : r.order with
          | none =>
            left
            unfold maxStep
            rw [hx]
            simp [hg, hv]
          | some v =>
            rw [maxStep_member m g acc x r v hx hg hv]
            rcases max_cases acc v with ⟨hmax, _⟩ | ⟨hmax, _⟩
            · left
              rw [hmax]
            · right
              refine ⟨x, List.mem_cons_self x t, r, hx, hg, ?_⟩
              rw [hmax]
              exact hv
        · left
          unfold maxStep
          rw [hx]
          simp only [Bool.not_eq_true] at hg
          simp [hg]
    · right
      obtain ⟨f, hf, r, hr, hg, hv⟩ := hwit
      exact ⟨f, List.mem_cons_of_mem x hf, r, hr, hg, hv⟩

/-- C7 counterexample: a group whose only member is an external link with order
5 is not consulted by the max-order scan, which walks the uploads directory
only; an upload with no digit in its name into that group gets order 0, not
5 + 1 = 6 as the claim ("considering all members ... or external links")
demands. -/
theorem c7_counterexample :
    assignedOrder
      [("link-1", { isExternal := true, groupId := some "g", order := some 5 })]
      [] "photo.jpg" (some "g") = 0 ∧
    getMeta [("link-1", { isExternal := true, groupId := some "g", order := some 5 })]
      "link-1" =
      some { isExternal := true, groupId := some "g", order := some 5 } ∧
    (0 : Int) ≠ 5 + 1 := by
  refine ⟨by decide, by decide, by decide⟩

/-- C7 amended: when the name/URL yields no digit-derived order and a groupId
is supplied, the assigned order is one greater than the maximum order among the
group members that are files of the uploads directory (external-link members
are not consulted): it is nonnegative, strictly greater than every on-disk
member's order, equal to 0 when no on-disk member carries an order, and
otherwise exactly one more than some on-disk member's order. -/
theorem c7_amended_max_order (m : Meta) (disk : List String) (nameOrUrl : String)
    (gid : String) (h : extractOrderFromFilename nameOrUrl = none) :
    (∀ f ∈ disk, ∀ r, getMeta m f = some r → r.groupId = some gid →
      ∀ v, r.order = some v → v < assignedOrder m disk nameOrUrl (some gid)) ∧
    0 ≤ assignedOrder m disk nameOrUrl (some gid) ∧
    ((∀ f ∈ disk, ∀ r, getMeta m f = some r → r.groupId = some gid → r.order = none) →
      assignedOrder m disk nameOrUrl (some gid) = 0) ∧
    (assignedOrder m disk nameOrUrl (some gid) = 0 ∨
      ∃ f ∈ disk, ∃ r, getMeta m f = some r ∧ r.groupId = some gid ∧
        r.order = some (assignedOrder m disk nameOrUrl (some gid) - 1)) := by
  have ha : assignedOrder m disk nameOrUrl (some gid) = maxOrderOnDisk m disk gid + 1 := by
    unfold assignedOrder
    rw [h]
  refine ⟨?_, ?_, ?_, ?_⟩
  · intro f hf r hr hg v hv
    rw [ha]
    have hb := foldl_maxStep_bound m gid disk f r hr (beq_iff_eq.2 hg) v hv (-1) hf
    unfold maxOrderOnDisk
    omega
  · rw [ha]
    have := foldl_maxStep_ge m gid disk (-1)
    unfold maxOrderOnDisk
    omega
  · intro hnone
    rw [ha]
    rcases foldl_maxStep_reached m gid disk (-1) with heq | ⟨f, hf, r, hr, hg, hv⟩
    · unfold maxOrderOnDisk
      omega
    · exfalso
      rw [hnone f hf r hr (beq_iff_eq.1 hg)] at hv
      cases hv
  · rcases foldl_maxStep_reached m gid disk (-1) with heq | ⟨f, hf, r, hr, hg, hv⟩
    · left
      rw [ha]
      unfold maxOrderOnDisk
      omega
    · right
      refine ⟨f, hf, r, hr, beq_iff_eq.1 hg, ?_⟩
      rw [ha]
      unfold maxOrderOnDisk
      rw [hv]
      congr 1
      omega

/-- Witness for C7: uploading a digitless name into a group with one on-disk
member of order 3. -/
theorem c7_amended_max_order_witness :
    (∀ f ∈ ["a.jpg"], ∀ r,
      getMeta [("a.jpg", { groupId := some "g", order := some 3 })] f = some r →
      r.groupId = some "g" → ∀ v, r.order = some v →
      v < assignedOrder [("a.jpg", { groupId := some "g", order := some 3 })]
        ["a.jpg"] "photo.jpg" (some "g")) ∧
    0 ≤ assignedOrder [("a.jpg", { groupId := some "g", order := some 3 })]
      ["a.jpg"] "photo.jpg" (some "g") ∧
    ((∀ f ∈ ["a.jpg"], ∀ r,
      getMeta [("a.jpg", { groupId := some "g", order := some 3 })] f = some r →
      r.groupId = some "g" → r.order = none) →
      assignedOrder [("a.jpg", { groupId := some "g", order := some 3 })]
        ["a.jpg"] "photo.jpg" (some "g") = 0) ∧
    (assignedOrder [("a.jpg", { groupId := some "g", order := some 3 })]
        ["a.jpg"] "photo.jpg" (some "g") = 0 ∨
      ∃ f ∈ ["a.jpg"], ∃ r,
        getMeta [("a.jpg", { groupId := some "g", order := some 3 })] f = some r ∧
        r.groupId = some "g" ∧
        r.order = some (assignedOrder [("a.jpg", { groupId := some "g", order := some 3 })]
          ["a.jpg"] "photo.jpg" (some "g") - 1)) :=
  c7_amended_max_order [("a.jpg", { groupId := some "g", order := some 3 })]
    ["a.jpg"] "photo.jpg" "g" (by decide)

/-! ## Claim C10: group reorder frame conditions -/

theorem firstIdx_spec (l : List String) (k : String) :
    ∀ i : Nat, firstIdx l k = some i →
      l.get? i = some k ∧ ∀ j < i, l.get? j ≠ some k := by
  induction l with
  | nil =>
    intro i h
    cases h
  | cons a t ih =>
    intro i h
    unfold firstIdx at h
    by_cases ha : a == k
    · rw [if_pos ha] at h
      cases h
      refine ⟨by simp [beq_iff_eq.1 ha], ?_⟩
      intro j hj
      omega
    · rw [if_neg ha] at h
      rw [Option.map_eq_some'] at h
      obtain ⟨i', hi', hie⟩ := h
      obtain ⟨hg, htl⟩ := ih i' hi'
      subst hie
      constructor
      · simpa using hg
      · intro j hj
        cases j with
        | zero =>
          simp only [List.get?_cons_zero]
          intro he
          exact ha (beq_iff_eq.2 (Option.some.inj he))
        | succ j' =>
          simp only [List.get?_cons_succ]
          exact htl j' (by omega)

theorem firstIdx_none (l : List String) (k : String) (h : k ∉ l) :
    firstIdx l k = none := by
  induction l with
  | nil => rfl
  | cons a t ih =>
    unfold firstIdx
    rw [if_neg (by
      intro ha
      exact h (beq_iff_eq.1 ha ▸ List.mem_cons_self a t))]
    rw [ih (fun ht => h (List.mem_cons_of_mem a ht))]
    rfl

theorem firstIdx_mem (l : List String) (k : String) (h : k ∈ l) :
    ∃ i, firstIdx l k = some i := by
  induction l with
  | nil => cases h
  | cons a t ih =>
    unfold firstIdx
    by_cases ha : a == k
    · exact ⟨0, by rw [if_pos ha]⟩
    · rcases List.mem_cons.1 h with he | ht
      · exact absurd (beq_iff_eq.2 he.symm) ha
      · obtain ⟨i, hi⟩ := ih ht
        exact ⟨i + 1, by rw [if_neg ha, hi]; rfl⟩

theorem getMeta_map_keypreserving (m : Meta) (φ : String × ItemMeta → String × ItemMeta)
    (hφ : ∀ kr, (φ kr).1 = kr.1) (k : String) :
    getMeta (m.map φ) k = (m.find? (fun kr => kr.1 == k)).map (fun kr => (φ kr).2) := by
  induction m with
  | nil => rfl
  | cons kr t ih =>
    rw [List.map_cons]
    by_cases hk : (kr.1 == k) = true
    · unfold getMeta
      rw [@List.find?_cons_of_pos _ (fun kr => kr.1 == k) (φ kr) (List.map φ t)
          (show ((φ kr).1 == k) = true by rw [hφ kr]; exact hk),
        @List.find?_cons_of_pos _ (fun kr => kr.1 == k) kr t hk]
      rfl
    · unfold getMeta at ih ⊢
      rw [@List.find?_cons_of_neg _ (fun kr => kr.1 == k) (φ kr) (List.map φ t)
          (show ¬((φ kr).1 == k) = true by rw [hφ kr]; exact hk),
        @List.find?_cons_of_neg _ (fun kr => kr.1 == k) kr t hk]
      exact ih

theorem getMeta_reorder (m : Meta) (disk : List String) (g : String) (fo : List String)
    (k : String) (r : ItemMeta) (h : getMeta m k = some r) :
    getMeta (reorderGroup m disk g fo) k =
      some (if (r.groupId == some g) && (memS k disk || r.isExternal) then
        (match firstIdx fo k with
         | some i => { r with order := some (i : Int) }
         | none => r)
      else r) := by
  have hφ : ∀ kr : String × ItemMeta,
      ((if (kr.2.groupId == some g) && (memS kr.1 disk || kr.2.isExternal) then
          match firstIdx fo kr.1 with
          | some i => (kr.1, { kr.2 with order := some (i : Int) })
          | none => kr
        else kr)).1 = kr.1 := by
    intro kr
    by_cases hc : (kr.2.groupId == some g) && (memS kr.1 disk || kr.2.isExternal)
    · rw [if_pos hc]
      cases firstIdx fo kr.1 <;> rfl
    · rw [if_neg hc]
  unfold reorderGroup
  rw [getMeta_map_keypreserving _ _ hφ]
  unfold getMeta at h
  rw [Option.map_eq_some'] at h
  obtain ⟨kr, hfind, hsnd⟩ := h
  have hkey : kr.1 = k := by
    have hp := List.find?_some hfind
    simpa using hp
  have hkr : kr = (k, r) := Prod.ext hkey hsnd
  subst hkr
  rw [hfind]
  by_cases hc : (r.groupId == some g) && (memS k disk || r.isExternal)
  · rw [Option.map_some']
    show some ((if (r.groupId == some g) && (memS k disk || r.isExternal) then
        match firstIdx fo k with
        | some i => (k, { r with order := some (i : Int) })
        | none => (k, r)
      else (k, r)).2) = _
    rw [if_pos hc, if_pos hc]
    cases firstIdx fo k <;> rfl
  · rw [Option.map_some']
    show some ((if (r.groupId == some g) && (memS k disk || r.isExternal) then
        match firstIdx fo k with
        | some i => (k, { r with order := some (i : Int) })
        | none => (k, r)
      else (k, r)).2) = _
    rw [if_neg hc, if_neg hc]

/-- C10 counterexample: a group member whose metadata record survives without
an on-disk file (and is not an external link) is listed in `fileOrder` yet
keeps its old order 7 instead of receiving array position 0 — the reorder
loops only walk the uploads directory and the external records. -/
theorem c10_counterexample :
    getMeta (reorderGroup [("a.jpg", { groupId := some "g", order := some 7 })]
        [] "g" ["a.jpg"]) "a.jpg" =
      some { groupId := some "g", order := some 7 } ∧
    firstIdx ["a.jpg"] "a.jpg" = some 0 ∧
    some (7 : Int) ≠ some (0 : Int) := by
  refine ⟨by decide, by decide, by decide⟩

/-- C10 amended: a reorder request leaves every record of another group (or of
no group) unchanged, leaves every record not listed in `fileOrder` unchanged,
leaves group members that are neither on disk nor external unchanged even when
listed, and gives every listed group member that is an on-disk file or an
external link the zero-based position of its first occurrence in `fileOrder`
as its new order, touching nothing else in the record. -/
theorem c10_amended_reorder (m : Meta) (disk : List String) (g : String)
    (fo : List String) :
    (∀ k r, getMeta m k = some r → r.groupId ≠ some g →
      getMeta (reorderGroup m disk g fo) k = some r) ∧
    (∀ k r, getMeta m k = some r → k ∉ fo →
      getMeta (reorderGroup m disk g fo) k = some r) ∧
    (∀ k r, getMeta m k = some r → k ∉ disk → r.isExternal = false →
      getMeta (reorderGroup m disk g fo) k = some r) ∧
    (∀ k r, getMeta m k = some r → r.groupId = some g →
      (k ∈ disk ∨ r.isExternal = true) → k ∈ fo →
      ∃ i : Nat,
        getMeta (reorderGroup m disk g fo) k =
          some { r with order := some (i : Int) } ∧
        fo.get? i = some k ∧ ∀ j < i, fo.get? j ≠ some k) := by
  refine ⟨?_, ?_, ?_, ?_⟩
  · intro k r h hg
    rw [getMeta_reorder m disk g fo k r h]
    rw [if_neg]
    intro hc
    exact hg (beq_iff_eq.1 (Bool.and_eq_true_iff.1 hc).1)
  · intro k r h hfo
    rw [getMeta_reorder m disk g fo k r h]
    rw [firstIdx_none fo k hfo]
    by_cases hc : (r.groupId == some g) && (memS k disk || r.isExternal)
    · rw [if_pos hc]
    · rw [if_neg hc]
  · intro k r h hd he
    rw [getMeta_reorder m disk g fo k r h]
    rw [if_neg]
    intro hc
    rcases Bool.or_eq_true_iff.1 (Bool.and_eq_true_iff.1 hc).2 with hm | hx
    · exact hd ((memS_iff k disk).1 hm)
    · rw [he] at hx
      cases hx
  · intro k r h hg hdx hfo
    obtain ⟨i, hi⟩ := firstIdx_mem fo k hfo
    obtain ⟨hget, hmin⟩ := firstIdx_spec fo k i hi
    refine ⟨i, ?_, hget, hmin⟩
    rw [getMeta_reorder m disk g fo k r h]
    rw [if_pos, hi]
    rw [Bool.and_eq_true_iff]
    refine ⟨beq_iff_eq.2 hg, ?_⟩
    rw [Bool.or_eq_true_iff]
    rcases hdx with hd | hx
    · exact Or.inl ((memS_iff k disk).2 hd)
    · exact Or.inr hx

/-- Witness for C10: reordering a one-member group that is present on disk. -/
theorem c10_amended_reorder_witness :
    ∃ i : Nat,
      getMeta (reorderGroup [("b.jpg", { groupId := some "g", order := some 1 })]
          ["b.jpg"] "g" ["b.jpg"]) "b.jpg" =
        some { ({ groupId := some "g", order := some 1 } : ItemMeta) with
          order := some (i : Int) } ∧
      (["b.jpg"].get? i = some "b.jpg") ∧ ∀ j < i, ["b.jpg"].get? j ≠ some "b.jpg" :=
  (c10_amended_reorder [("b.jpg", { groupId := some "g", order := some 1 })]
      ["b.jpg"] "g" ["b.jpg"]).2.2.2 "b.jpg"
    { groupId := some "g", order := some 1 } (by decide) (by decide)
    (Or.inl (by decide)) (by decide)

/-! ## Claim C8: group deletion -/

theorem deleteItem_group (m : Meta) (disk : List String) (gid : String)
    (hg : beginsWith "group-".data gid.data = true) :
    deleteItem m disk gid =
      { metadata := (m.filter (fun kr =>
            !(memS kr.1 (disk.filter (fun f => diskMemberOf m gid f))))).filter
          (fun kr => !(kr.2.isExternal && kr.2.groupId == some gid)),
        disk := disk.filter (fun f => !(diskMemberOf m gid f)),
        outcome := DeleteOutcome.groupOk
          ((disk.filter (fun f => diskMemberOf m gid f)).length +
            ((m.filter (fun kr =>
              !(memS kr.1 (disk.filter (fun f => diskMemberOf m gid f))))).filter
              (fun kr => kr.2.isExternal && kr.2.groupId == some gid)).length) } := by
  unfold deleteItem
  rw [if_pos hg]

/-- C8 counterexample: a stored-file member whose file is missing from disk
(an orphaned record) keeps its metadata record through group deletion, which
only deletes records of files it finds in the uploads directory, contradicting
"removes every member's metadata record". -/
theorem c8_counterexample :
    getMeta (deleteItem [("a.jpg", { groupId := some "group-1" })] [] "group-1").metadata
        "a.jpg" = some { groupId := some "group-1" } ∧
    (deleteItem [("a.jpg", { groupId := some "group-1" })] [] "group-1").outcome =
      DeleteOutcome.groupOk 0 := by
  refine ⟨by decide, by decide⟩

/-- C8 amended: deleting a group removes, for every member whose file is on
disk, both the file and its metadata record, and the record of every
external-link member; records of other groups (or of no group) and files of
other groups stay; stored-file member records whose file is absent from disk
are left behind (reconciliation cleans them up later); afterwards the
group-detail endpoint resolves no members, so `GET /api/groups/:groupId`
answers not-found; the branch always reports success with a count, and the
count is zero when the group has no on-disk and no external members. -/
theorem c8_amended_group_delete (m : Meta) (disk : List String) (gid : String)
    (hm : keysNodup m) (hg : beginsWith "group-".data gid.data = true) :
    (∀ f ∈ disk, ∀ r, getMeta m f = some r → r.groupId = some gid →
      f ∉ (deleteItem m disk gid).disk ∧
      getMeta (deleteItem m disk gid).metadata f = none) ∧
    (∀ k r, getMeta m k = some r → r.isExternal = true → r.groupId = some gid →
      getMeta (deleteItem m disk gid).metadata k = none) ∧
    (∀ k r, getMeta m k = some r → r.groupId ≠ some gid →
      getMeta (deleteItem m disk gid).metadata k = some r) ∧
    (∀ f ∈ disk, (∀ r, getMeta m f = some r → r.groupId ≠ some gid) →
      f ∈ (deleteItem m disk gid).disk) ∧
    groupMembers (deleteItem m disk gid).metadata (deleteItem m disk gid).disk gid = [] ∧
    ((∀ f ∈ disk, ∀ r, getMeta m f = some r → r.groupId ≠ some gid) →
      (∀ k r, getMeta m k = some r → r.isExternal = true → r.groupId ≠ some gid) →
      (deleteItem m disk gid).outcome = DeleteOutcome.groupOk 0) ∧
    (∃ n, (deleteItem m disk gid).outcome = DeleteOutcome.groupOk n) := by
  rw [deleteItem_group m disk gid hg]
  have hmemB : ∀ f r, getMeta m f = some r → r.groupId = some gid →
      diskMemberOf m gid f = true := by
    intro f r hr hgr
    unfold diskMemberOf
    rw [hr]
    show (r.groupId == some gid) = true
    exact beq_iff_eq.2 hgr
  have hmemB' : ∀ f, (∀ r, getMeta m f = some r → r.groupId ≠ some gid) →
      diskMemberOf m gid f = false := by
    intro f hr
    unfold diskMemberOf
    cases hx : getMeta m f with
    | none => rfl
    | some r =>
      show (r.groupId == some gid) = false
      rw [beq_eq_false_iff_ne]
      exact hr r hx
  have hM1none : ∀ f ∈ disk, ∀ r, getMeta m f = some r → r.groupId = some gid →
      getMeta (m.filter (fun kr =>
        !(memS kr.1 (disk.filter (fun f => diskMemberOf m gid f))))) f = none := by
    intro f hf r hr hgr
    rw [getMeta_eq_none_iff]
    intro kr hkr hke
    have hpk := List.of_mem_filter hkr
    rw [hke] at hpk
    rw [Bool.not_eq_true', Bool.eq_false_iff] at hpk
    apply hpk
    exact (memS_iff _ _).2 (List.mem_filter.2 ⟨hf, hmemB f r hr hgr⟩)
  refine ⟨?_, ?_, ?_, ?_, ?_, ?_, ?_⟩
  · intro f hf r hr hgr
    constructor
    · intro hmem
      have hpf := List.of_mem_filter hmem
      rw [hmemB f r hr hgr] at hpf
      cases hpf
    · exact getMeta_none_filter _ _ f (hM1none f hf r hr hgr)
  · intro k r hr hext hgr
    rw [getMeta_eq_none_iff]
    intro kr hkr hke
    have hpk2 := List.of_mem_filter hkr
    have hkrm : kr ∈ m := List.mem_of_mem_filter (List.mem_of_mem_filter hkr)
    have hkr2 : kr.2 = r := by
      have hgm := getMeta_of_mem m kr.1 kr.2 hm hkrm
      rw [hke, hr] at hgm
      exact (Option.some.inj hgm).symm
    rw [Bool.not_eq_true', Bool.and_eq_false_iff] at hpk2
    rcases hpk2 with h1 | h2
    · rw [hkr2, hext] at h1
      cases h1
    · rw [hkr2] at h2
      rw [beq_eq_false_iff_ne] at h2
      exact h2 hgr
  · intro k r hr hgr
    have hM1 : getMeta (m.filter (fun kr =>
        !(memS kr.1 (disk.filter (fun f => diskMemberOf m gid f))))) k = some r := by
      apply getMeta_filter_of_kept m _ k r hm hr
      rw [Bool.not_eq_true', Bool.eq_false_iff]
      intro hms
      have hkv := (memS_iff _ _).1 hms
      have hpv := List.of_mem_filter hkv
      unfold diskMemberOf at hpv
      rw [hr] at hpv
      have : (r.groupId == some gid) = true := hpv
      exact hgr (beq_iff_eq.1 this)
    apply getMeta_filter_of_kept _ _ k r (keysNodup_filter m _ hm) hM1
    rw [Bool.not_eq_true', Bool.and_eq_false_iff]
    right
    rw [beq_eq_false_iff_ne]
    exact hgr
  · intro f hf hr
    exact List.mem_filter.2 ⟨hf, by rw [hmemB' f hr]; rfl⟩
  · unfold groupMembers detailMembersRaw
    have hphys : physMembers
        ((m.filter (fun kr =>
          !(memS kr.1 (disk.filter (fun f => diskMemberOf m gid f))))).filter
          (fun kr => !(kr.2.isExternal && kr.2.groupId == some gid)))
        (disk.filter (fun f => !(diskMemberOf m gid f))) gid = [] := by
      unfold physMembers
      rw [show (disk.filter (fun f => !(diskMemberOf m gid f))).filter _ = [] from ?_]
      · rfl
      · rw [List.filter_eq_nil_iff]
        intro f hfd hp
        have hnm := List.of_mem_filter hfd
        rw [Bool.not_eq_true'] at hnm
        rw [Bool.and_eq_true_iff] at hp
        have hp1 := hp.1
        cases hx : getMeta ((m.filter (fun kr =>
            !(memS kr.1 (disk.filter (fun f => diskMemberOf m gid f))))).filter
            (fun kr => !(kr.2.isExternal && kr.2.groupId == some gid))) f with
        | none => rw [hx] at hp1; cases hp1
        | some r' =>
          rw [hx] at hp1
          have hmm : getMeta m f = some r' :=
            getMeta_filter_subset _ _ f hm r'
              (getMeta_filter_subset _ _ f (keysNodup_filter m _ hm) r' hx)
          unfold diskMemberOf at hnm
          rw [hmm] at hnm
          have htrue : (r'.groupId == some gid) = true := hp1
          have hfalse : (r'.groupId == some gid) = false := hnm
          rw [htrue] at hfalse
          cases hfalse
    have hext : extMembers
        ((m.filter (fun kr =>
          !(memS kr.1 (disk.filter (fun f => diskMemberOf m gid f))))).filter
          (fun kr => !(kr.2.isExternal && kr.2.groupId == some gid))) gid = [] := by
      unfold extMembers
      rw [show ((m.filter (fun kr =>
          !(memS kr.1 (disk.filter (fun f => diskMemberOf m gid f))))).filter
          (fun kr => !(kr.2.isExternal && kr.2.groupId == some gid))).filter
          (fun kr => kr.2.isExternal && kr.2.groupId == some gid) = [] from ?_]
      · rfl
      · rw [List.filter_eq_nil_iff]
        intro kr hkr hp
        have hnp := List.of_mem_filter hkr
        rw [Bool.not_eq_true'] at hnp
        rw [hnp] at hp
        cases hp
    rw [hphys, hext]
    rfl
  · intro hnof hnoe
    have hvict : disk.filter (fun f => diskMemberOf m gid f) = [] := by
      rw [List.filter_eq_nil_iff]
      intro f hf hp
      rw [hmemB' f (hnof f hf)] at hp
      cases hp
    have hextv : ((m.filter (fun kr =>
        !(memS kr.1 (disk.filter (fun f => diskMemberOf m gid f))))).filter
        (fun kr => kr.2.isExternal && kr.2.groupId == some gid)) = [] := by
      rw [List.filter_eq_nil_iff]
      intro kr hkr hp
      rw [Bool.and_eq_true_iff] at hp
      have hkrm : kr ∈ m := List.mem_of_mem_filter hkr
      have hgm := getMeta_of_mem m kr.1 kr.2 hm hkrm
      have := hnoe kr.1 kr.2 hgm hp.1
      exact this (beq_iff_eq.1 hp.2)
    show DeleteOutcome.groupOk _ = DeleteOutcome.groupOk 0
    rw [hextv, hvict]
    rfl
  · exact ⟨_, rfl⟩

/-- Witness for C8: deleting `group-1` from a map holding one on-disk member,
one external member, and an unrelated file. -/
theorem c8_amended_group_delete_witness :
    (∀ f ∈ ["a.jpg", "z.png"], ∀ r,
      getMeta [("a.jpg", { groupId := some "group-1" }),
        ("link-9", { isExternal := true, groupId := some "group-1" }),
        ("z.png", {})] f = some r → r.groupId = some "group-1" →
      f ∉ (deleteItem [("a.jpg", { groupId := some "group-1" }),
        ("link-9", { isExternal := true, groupId := some "group-1" }),
        ("z.png", {})] ["a.jpg", "z.png"] "group-1").disk ∧
      getMeta (deleteItem [("a.jpg", { groupId := some "group-1" }),
        ("link-9", { isExternal := true, groupId := some "group-1" }),
        ("z.png", {})] ["a.jpg", "z.png"] "group-1").metadata f = none) ∧
    (∀ k r, getMeta [("a.jpg", { groupId := some "group-1" }),
        ("link-9", { isExternal := true, groupId := some "group-1" }),
        ("z.png", {})] k = some r → r.isExternal = true → r.groupId = some "group-1" →
      getMeta (deleteItem [("a.jpg", { groupId := some "group-1" }),
        ("link-9", { isExternal := true, groupId := some "group-1" }),
        ("z.png", {})] ["a.jpg", "z.png"] "group-1").metadata k = none) ∧
    (∀ k r, getMeta [("a.jpg", { groupId := some "group-1" }),
        ("link-9", { isExternal := true, groupId := some "group-1" }),
        ("z.png", {})] k = some r → r.groupId ≠ some "group-1" →
      getMeta (deleteItem [("a.jpg", { groupId := some "group-1" }),
        ("link-9", { isExternal := true, groupId := some "group-1" }),
        ("z.png", {})] ["a.jpg", "z.png"] "group-1").metadata k = some r) ∧
    (∀ f ∈ ["a.jpg", "z.png"], (∀ r,
      getMeta [("a.jpg", { groupId := some "group-1" }),
        ("link-9", { isExternal := true, groupId := some "group-1" }),
        ("z.png", {})] f = some r → r.groupId ≠ some "group-1") →
      f ∈ (deleteItem [("a.jpg", { groupId := some "group-1" }),
        ("link-9", { isExternal := true, groupId := some "group-1" }),
        ("z.png", {})] ["a.jpg", "z.png"] "group-1").disk) ∧
    groupMembers (deleteItem [("a.jpg", { groupId := some "group-1" }),
        ("link-9", { isExternal := true, groupId := some "group-1" }),
        ("z.png", {})] ["a.jpg", "z.png"] "group-1").metadata
      (deleteItem [("a.jpg", { groupId := some "group-1" }),
        ("link-9", { isExternal := true, groupId := some "group-1" }),
        ("z.png", {})] ["a.jpg", "z.png"] "group-1").disk "group-1" = [] ∧
    ((∀ f ∈ ["a.jpg", "z.png"], ∀ r,
      getMeta [("a.jpg", { groupId := some "group-1" }),
        ("link-9", { isExternal := true, groupId := some "group-1" }),
        ("z.png", {})] f = some r → r.groupId ≠ some "group-1") →
      (∀ k r, getMeta [("a.jpg", { groupId := some "group-1" }),
        ("link-9", { isExternal := true, groupId := some "group-1" }),
        ("z.png", {})] k = some r → r.isExternal = true → r.groupId ≠ some "group-1") →
      (deleteItem [("a.jpg", { groupId := some "group-1" }),
        ("link-9", { isExternal := true, groupId := some "group-1" }),
        ("z.png", {})] ["a.jpg", "z.png"] "group-1").outcome = DeleteOutcome.groupOk 0) ∧
    (∃ n, (deleteItem [("a.jpg", { groupId := some "group-1" }),
        ("link-9", { isExternal := true, groupId := some "group-1" }),
        ("z.png", {})] ["a.jpg", "z.png"] "group-1").outcome = DeleteOutcome.groupOk n) :=
  c8_amended_group_delete
    [("a.jpg", { groupId := some "group-1" }),
      ("link-9", { isExternal := true, groupId := some "group-1" }),
      ("z.png", {})]
    ["a.jpg", "z.png"] "group-1" (by decide) (by decide)

/-! ## Claim C4: title resolution -/

theorem mem_sortFiles (l : List GFile) (f : GFile) : f ∈ sortFiles l ↔ f ∈ l :=
  (List.perm_insertionSort fileLE l).mem_iff

theorem sortFiles_eq_nil_iff (l : List GFile) : sortFiles l = [] ↔ l = [] := by
  constructor
  · intro h
    have hlen := (List.perm_insertionSort fileLE l).length_eq
    unfold sortFiles at h
    rw [h] at hlen
    simpa using List.length_eq_zero.1 hlen.symm
  · intro h
    subst h
    rfl

theorem headD_invariant (l : List GFile) (h : l ≠ []) (x y : GFile) :
    l.headD x = l.headD y := by
  cases l with
  | nil => exact absurd rfl h
  | cons a t => rfl

theorem listing_detail_sorted_eq (m : Meta) (disk : List String) (g : String) :
    listingSortedFiles m disk g = detailSortedFiles m disk g := by
  unfold listingSortedFiles detailSortedFiles listingMembersRaw detailMembersRaw
  exact List.eq_of_perm_of_sorted
    ((List.perm_insertionSort fileLE _).trans
      (List.perm_append_comm.trans (List.perm_insertionSort fileLE _).symm))
    (List.sorted_insertionSort fileLE _)
    (List.sorted_insertionSort fileLE _)

theorem scanTid_none (m : Meta) (l : List GFile) (h : ∀ f ∈ l, tidOf m f.id = none) :
    scanTid m l = none := by
  induction l with
  | nil => rfl
  | cons a t ih =>
    unfold scanTid at ih ⊢
    rw [List.findSome?_cons, h a (List.mem_cons_self a t)]
    exact ih (fun f hf => h f (List.mem_cons_of_mem a hf))

theorem scanTid_uniform (m : Meta) (l : List GFile) (t : String)
    (huni : ∀ f ∈ l, tidOf m f.id = none ∨ tidOf m f.id = some t)
    (hex : ∃ f ∈ l, tidOf m f.id = some t) :
    scanTid m l = some t := by
  induction l with
  | nil =>
    obtain ⟨f, hf, _⟩ := hex
    cases hf
  | cons a rest ih =>
    unfold scanTid at ih ⊢
    rw [List.findSome?_cons]
    cases ha : tidOf m a.id with
    | some u =>
      rcases huni a (List.mem_cons_self a rest) with hn | ht
      · rw [ha] at hn
        cases hn
      · rw [ha] at ht
        exact ht
    | none =>
      obtain ⟨f, hf, hft⟩ := hex
      rcases List.mem_cons.1 hf with rfl | hfr
      · rw [ha] at hft
        cases hft
      · exact ih (fun f hf => huni f (List.mem_cons_of_mem a hf)) ⟨f, hfr, hft⟩

theorem find_id_exists (l : List GFile) (t : String) (h : ∃ f ∈ l, f.id = t) :
    ∃ f0, l.find? (fun f => f.id == t) = some f0 ∧ f0.id = t := by
  induction l with
  | nil =>
    obtain ⟨f, hf, _⟩ := h
    cases hf
  | cons a rest ih =>
    by_cases ha : (a.id == t) = true
    · exact ⟨a, List.find?_cons_of_pos rest ha, beq_iff_eq.1 ha⟩
    · obtain ⟨f, hf, hft⟩ := h
      rcases List.mem_cons.1 hf with rfl | hfr
      · exact absurd (beq_iff_eq.2 hft) ha
      · obtain ⟨f0, hf0, hf0t⟩ := ih ⟨f, hfr, hft⟩
        exact ⟨f0, by rw [List.find?_cons_of_neg rest ha]; exact hf0, hf0t⟩

theorem detailFiles_none_branch (m : Meta) (disk : List String) (g : String)
    (h : scanTid m (detailMembersRaw m disk g) = none) :
    detailFiles m disk g =
      (detailSortedFiles m disk g).map
        (fun f => (f, f.id == ((detailSortedFiles m disk g).headD f).id)) := by
  unfold detailFiles
  rw [h]

theorem detailFiles_some_branch (m : Meta) (disk : List String) (g : String) (t : String)
    (h : scanTid m (detailMembersRaw m disk g) = some t) :
    detailFiles m disk g =
      (detailSortedFiles m disk g).map (fun f => (f, f.id == t)) := by
  unfold detailFiles
  rw [h]

theorem listingTitleId_eq (m : Meta) (disk : List String) (g : String) (h0 : GFile)
    (hh : (listingSortedFiles m disk g).head? = some h0) :
    listingTitleId m disk g =
      some ((((listingSortedFiles m disk g).find?
        (fun f => f.id ==
          ((scanTid m (listingSortedFiles m disk g)).getD h0.id))).getD h0).id) := by
  unfold listingTitleId
  rw [hh]

/-- C4 counterexample: in a two-member group where one record's `titleImageId`
names an id that is not a member, `GET /api/groups/:groupId` flags no member as
title at all — it does not fall back to the first member by sort order as the
claim states (the listing endpoint does fall back). -/
theorem c4_counterexample :
    detailMembersRaw
      [("a.jpg", { groupId := some "g", order := some 0, titleImageId := some "zzz" }),
        ("b.jpg", { groupId := some "g", order := some 1 })]
      ["a.jpg", "b.jpg"] "g" ≠ [] ∧
    (detailFiles
      [("a.jpg", { groupId := some "g", order := some 0, titleImageId := some "zzz" }),
        ("b.jpg", { groupId := some "g", order := some 1 })]
      ["a.jpg", "b.jpg"] "g").map Prod.snd = [false, false] := by
  refine ⟨by decide, by decide⟩

/-- C4 amended: for every group, (1) when no member's record carries a
`titleImageId`, both endpoints resolve the first member in `(order, id)`-sorted
order as the title — the detail endpoint flags exactly the members with the
first sorted member's id, the listing returns that id; (2) when the members'
`titleImageId`s agree on one id `t` that belongs to the group, both endpoints
resolve `t`, regardless of its sort position; (3) when that agreed `t` does not
belong to the group, the listing endpoint falls back to the first member by
sort, but the detail endpoint flags no member as title at all. -/
theorem c4_amended_title_resolution (m : Meta) (disk : List String) (g : String) :
    ((∀ f ∈ detailMembersRaw m disk g, tidOf m f.id = none) →
      (∀ p ∈ detailFiles m disk g,
        p.2 = true ↔
          p.1.id = ((detailSortedFiles m disk g).headD { id := "", ord := 0 }).id) ∧
      (detailMembersRaw m disk g ≠ [] →
        listingTitleId m disk g =
          some ((detailSortedFiles m disk g).headD { id := "", ord := 0 }).id)) ∧
    (∀ t : String,
      (∀ f ∈ detailMembersRaw m disk g, tidOf m f.id = none ∨ tidOf m f.id = some t) →
      (∃ f ∈ detailMembersRaw m disk g, tidOf m f.id = some t) →
      ((t ∈ (detailMembersRaw m disk g).map GFile.id →
        (∀ p ∈ detailFiles m disk g, p.2 = true ↔ p.1.id = t) ∧
        listingTitleId m disk g = some t) ∧
      (t ∉ (detailMembersRaw m disk g).map GFile.id →
        (∀ p ∈ detailFiles m disk g, p.2 = false) ∧
        (detailMembersRaw m disk g ≠ [] →
          listingTitleId m disk g =
            some ((detailSortedFiles m disk g).headD { id := "", ord := 0 }).id)))) := by
  have hmemL : ∀ f : GFile, f ∈ listingSortedFiles m disk g ↔ f ∈ detailMembersRaw m disk g := by
    intro f
    rw [listing_detail_sorted_eq]
    unfold detailSortedFiles
    exact mem_sortFiles _ f
  constructor
  · intro hnone
    have hscan : scanTid m (detailMembersRaw m disk g) = none := scanTid_none m _ hnone
    constructor
    · intro p hp
      rw [detailFiles_none_branch m disk g hscan] at hp
      obtain ⟨f, hfmem, hfe⟩ := List.mem_map.1 hp
      have hne : detailSortedFiles m disk g ≠ [] := by
        intro h0
        rw [h0] at hfmem
        cases hfmem
      rw [← hfe]
      show (f.id == ((detailSortedFiles m disk g).headD f).id) = true ↔ _
      rw [headD_invariant _ hne f { id := "", ord := 0 }]
      exact beq_iff_eq
    · intro hraw
      have hLne : listingSortedFiles m disk g ≠ [] := by
        rw [listing_detail_sorted_eq]
        unfold detailSortedFiles
        rw [Ne, sortFiles_eq_nil_iff]
        exact hraw
      obtain ⟨h0, rest, hsl⟩ : ∃ h0 rest, listingSortedFiles m disk g = h0 :: rest := by
        cases hL : listingSortedFiles m disk g with
        | nil => exact absurd hL hLne
        | cons a b => exact ⟨a, b, rfl⟩
      have hscanL : scanTid m (listingSortedFiles m disk g) = none := by
        apply scanTid_none
        intro f hf
        exact hnone f ((hmemL f).1 hf)
      rw [listingTitleId_eq m disk g h0 (by rw [hsl]; rfl)]
      rw [hscanL]
      have hfind : (listingSortedFiles m disk g).find?
          (fun f => f.id == ((none : Option String).getD h0.id)) = some h0 := by
        rw [hsl]
        exact List.find?_cons_of_pos rest (by simp)
      rw [hfind]
      have hhead : (detailSortedFiles m disk g).headD { id := "", ord := 0 } = h0 := by
        rw [← listing_detail_sorted_eq, hsl]
        rfl
      rw [hhead]
      rfl
  · intro t huni hex
    have hscan : scanTid m (detailMembersRaw m disk g) = some t := scanTid_uniform m _ t huni hex
    have hscanL : scanTid m (listingSortedFiles m disk g) = some t := by
      apply scanTid_uniform
      · intro f hf
        exact huni f ((hmemL f).1 hf)
      · obtain ⟨f, hf, hft⟩ := hex
        exact ⟨f, (hmemL f).2 hf, hft⟩
    have hrawne : detailMembersRaw m disk g ≠ [] := by
      obtain ⟨f, hf, _⟩ := hex
      intro h0
      rw [h0] at hf
      cases hf
    have hLne : listingSortedFiles m disk g ≠ [] := by
      rw [listing_detail_sorted_eq]
      unfold detailSortedFiles
      rw [Ne, sortFiles_eq_nil_iff]
      exact hrawne
    obtain ⟨h0, rest, hsl⟩ : ∃ h0 rest, listingSortedFiles m disk g = h0 :: rest := by
      cases hL : listingSortedFiles m disk g with
      | nil => exact absurd hL hLne
      | cons a b => exact ⟨a, b, rfl⟩
    constructor
    · intro htmem
      constructor
      · intro p hp
        rw [detailFiles_some_branch m disk g t hscan] at hp
        obtain ⟨f, hfmem, hfe⟩ := List.mem_map.1 hp
        rw [← hfe]
        exact beq_iff_eq
      · obtain ⟨ft, hftm, hfte⟩ := List.mem_map.1 htmem
        have hftL : ft ∈ listingSortedFiles m disk g := (hmemL ft).2 hftm
        obtain ⟨f0, hf0, hf0t⟩ := find_id_exists (listingSortedFiles m disk g) t
          ⟨ft, hftL, hfte⟩
        rw [listingTitleId_eq m disk g h0 (by rw [hsl]; rfl), hscanL]
        show some ((((listingSortedFiles m disk g).find?
          (fun f => f.id == t)).getD h0).id) = some t
        rw [hf0]
        rw [Option.getD_some]
        rw [hf0t]
    · intro htnot
      constructor
      · intro p hp
        rw [detailFiles_some_branch m disk g t hscan] at hp
        obtain ⟨f, hfmem, hfe⟩ := List.mem_map.1 hp
        rw [← hfe]
        show (f.id == t) = false
        rw [beq_eq_false_iff_ne]
        intro hfi
        apply htnot
        rw [← hfi]
        refine List.mem_map.2 ⟨f, ?_, rfl⟩
        have : f ∈ detailSortedFiles m disk g := hfmem
        unfold detailSortedFiles at this
        exact (mem_sortFiles _ f).1 this
      · intro hraw
        have hfind : (listingSortedFiles m disk g).find? (fun f => f.id == t) = none := by
          rw [List.find?_eq_none]
          intro f hf hbeq
          apply htnot
          rw [← beq_iff_eq.1 hbeq]
          exact List.mem_map.2 ⟨f, (hmemL f).1 hf, rfl⟩
        rw [listingTitleId_eq m disk g h0 (by rw [hsl]; rfl), hscanL]
        show some ((((listingSortedFiles m disk g).find?
          (fun f => f.id == t)).getD h0).id) = _
        rw [hfind]
        have hhead : (detailSortedFiles m disk g).headD { id := "", ord := 0 } = h0 := by
          rw [← listing_detail_sorted_eq, hsl]
          rfl
        rw [hhead]
        rfl

/-- Witness for C4: a two-member group with a uniform valid titleImageId
pointing at the later member by sort order. -/
theorem c4_amended_title_resolution_witness :
    (∀ p ∈ detailFiles
        [("a.jpg", { groupId := some "g", order := some 0, titleImageId := some "b.jpg" }),
          ("b.jpg", { groupId := some "g", order := some 1, titleImageId := some "b.jpg" })]
        ["a.jpg", "b.jpg"] "g", p.2 = true ↔ p.1.id = "b.jpg") ∧
    listingTitleId
      [("a.jpg", { groupId := some "g", order := some 0, titleImageId := some "b.jpg" }),
        ("b.jpg", { groupId := some "g", order := some 1, titleImageId := some "b.jpg" })]
      ["a.jpg", "b.jpg"] "g" = some "b.jpg" :=
  ((c4_amended_title_resolution
      [("a.jpg", { groupId := some "g", order := some 0, titleImageId := some "b.jpg" }),
        ("b.jpg", { groupId := some "g", order := some 1, titleImageId := some "b.jpg" })]
      ["a.jpg", "b.jpg"] "g").2 "b.jpg" (by decide) (by decide)).1 (by decide)

/-! ## Claim C6: registering the sample YouTube link -/

/-- C6 counterexample: registering `https://youtu.be/abc123` with no groupId
stores order 122, not the claimed 999 — the order-derivation policy finds the
digit run `123` in the URL. -/
theorem c6_counterexample :
    (uploadLink [] [] "https://youtu.be/abc123" none).order = 122 ∧
    (uploadLink [] [] "https://youtu.be/abc123" none).order ≠ 999 := by
  constructor
  · rfl
  · decide

/-- C6 amended: registering the link `https://youtu.be/abc123` with no groupId
produces videoType `youtube`, embedUrl `https://www.youtube.com/embed/abc123`,
and order 122 (the first digit run `123` of the URL, made zero-based), because
the stored-file order-derivation policy is applied to the URL string. -/
theorem c6_amended_link_item (m : Meta) (disk : List String) :
    uploadLink m disk "https://youtu.be/abc123" none =
      { videoType := "youtube", embedUrl := "https://www.youtube.com/embed/abc123",
        order := 122 } := by
  rfl

end Gallery
